import Mathlib

/-!
# Minesweeper Online — verification of the server-side game engine

Shallow embedding of `functions/minesweeper-api/src/main.js` (the unified
Appwrite function that owns all authoritative game state).  JS arrays of
cells become `List (List Cell)`, JS numbers become `Nat`/`Int`, the
`Math.random()` stream of the mine generator becomes an explicit list of
samples, and the JS `Set` of `"r-c"` keys becomes a `Finset (Nat × Nat)`.
Each HTTP handler becomes a pure function from the game document and the
request to `Except` of an error or the new document plus the JSON view it
returns.
-/

namespace Minesweeper

/-- `CellState` from main.js: `{ HIDDEN: 'hidden', REVEALED: 'revealed', FLAGGED: 'flagged' }`. -/
inductive CellState
  | hidden
  | revealed
  | flagged
deriving DecidableEq, Repr

/-- A board cell as built by `createBoard`: `{id, row, col, isMine, neighborMines, state}`.
The string `id` is always `"row-col"`, fully determined by `row`/`col`, so it is not
duplicated here. -/
structure Cell where
  row : Nat
  col : Nat
  isMine : Bool
  neighborMines : Nat
  state : CellState
deriving DecidableEq, Repr

/-- The authoritative board: a JS array of rows, each an array of cells. -/
abbrev Board := List (List Cell)

/-- A difficulty preset `{rows, cols, mines}` (cf. `DIFFICULTY_PRESETS`). -/
structure GameConfig where
  rows : Nat
  cols : Nat
  mines : Nat
deriving DecidableEq, Repr

/-- `board[row][col]`, as an `Option` since Lean has no out-of-bounds crash. -/
def getCell (b : Board) (row col : Nat) : Option Cell :=
  (b.get? row).bind fun r => r.get? col

/-- `board[row][col].isMine`, with a JS out-of-bounds access modelled as `false`
(every use in the source is bounds-checked first). -/
def cellIsMine (b : Board) (row col : Nat) : Bool :=
  ((getCell b row col).map Cell.isMine).getD false

/-- In-place update `board[row][col] = f(board[row][col])`; a no-op out of bounds. -/
def mapCell (b : Board) (row col : Nat) (f : Cell → Cell) : Board :=
  match b.get? row with
  | none => b
  | some rowCells =>
    match rowCells.get? col with
    | none => b
    | some cell => b.set row (rowCells.set col (f cell))

/-- `createBoard(config)` from main.js lines 785-797: a rows×cols grid of
hidden, mine-free cells. -/
def createBoard (cfg : GameConfig) : Board :=
  (List.range cfg.rows).map fun row =>
    (List.range cfg.cols).map fun col =>
      { row := row, col := col, isMine := false, neighborMines := 0, state := CellState.hidden }

/-- The loop body of `placeMines` (main.js lines 799-810).  The stream of
`Math.floor(Math.random() * rows/cols)` draws is made explicit as `samples`;
the JS `while` loop keeps drawing forever, so an exhausted sample list is the
one divergence point and is modelled as `none`. -/
def placeMinesGo (cfg : GameConfig) (firstRow firstCol : Nat) :
    Board → Nat → List (Nat × Nat) → Option Board
  | nb, placed, [] => if cfg.mines ≤ placed then some nb else none
  | nb, placed, (rr, rc) :: rest =>
    if cfg.mines ≤ placed then some nb
    else if (rr == firstRow && rc == firstCol) || cellIsMine nb rr rc then
      placeMinesGo cfg firstRow firstCol nb placed rest
    else
      placeMinesGo cfg firstRow firstCol
        (mapCell nb rr rc fun cell => { cell with isMine := true }) (placed + 1) rest

/-- `placeMines(board, config, firstRow, firstCol)` from main.js lines 799-810. -/
def placeMines (board : Board) (cfg : GameConfig) (firstRow firstCol : Nat)
    (samples : List (Nat × Nat)) : Option Board :=
  placeMinesGo cfg firstRow firstCol board 0 samples

/-- The index list of the JS loop `for (let r = Math.max(0, i-1); r <= Math.min(n-1, i+1); r++)`:
all `j < n` with `i-1 ≤ j ≤ i+1` (the lower bound written overflow-safely as `i ≤ j+1`). -/
def clampedRange (n i : Nat) : List Nat :=
  (List.range n).filter fun j => i ≤ j + 1 && j ≤ i + 1

/-- The neighbor-counting loop of `calculateNeighborMines` (main.js lines 818-823):
`cnt` of the mines among the ≤8 Moore neighbors of `(row, col)`. -/
def countNeighborMinesAt (b : Board) (rows cols row col : Nat) : Nat :=
  ((clampedRange rows row).map fun r =>
    ((clampedRange cols col).filter fun c => (r != row || c != col) && cellIsMine b r c).length).sum

/-- Fallback cell for an out-of-bounds JS array access that cannot occur on
rectangular boards. -/
def dummyCell : Cell :=
  { row := 0, col := 0, isMine := false, neighborMines := 0, state := CellState.hidden }

/-- `calculateNeighborMines(board)` from main.js lines 812-829.  The JS loop
mutates a copy `nb` but only ever writes `neighborMines`, never `isMine`, so
every `nb[r][c].isMine` read sees the input values; the translation therefore
reads from the input board. -/
def calculateNeighborMines (b : Board) : Board :=
  let rows := b.length
  let cols := (b.head?.map List.length).getD 0
  (List.range rows).map fun row =>
    (List.range cols).map fun col =>
      let cell := (getCell b row col).getD dummyCell
      if cell.isMine then cell
      else { cell with neighborMines := countNeighborMinesAt b rows cols row col }

/-- The Moore-neighbor positions visited by the nested clamped loops of
`revealEmptyCells` (main.js lines 850-852), in loop order, excluding the center. -/
def neighborPositions (rows cols row col : Nat) : List (Nat × Nat) :=
  (clampedRange rows row).flatMap fun r =>
    ((clampedRange cols col).filter fun c => r != row || c != col).map fun c => (r, c)

/-- One neighbor step of the classic reveal loop (main.js lines 853-858): if the
neighbor is not yet revealed and not a mine, mark it revealed, record it, and
push it on the work stack when it has zero neighboring mines.  State is
`(board, revealed, pushes)`. -/
def classicVisit (st : Board × List (Nat × Nat) × List (Nat × Nat)) (pos : Nat × Nat) :
    Board × List (Nat × Nat) × List (Nat × Nat) :=
  let (board, revealed, pushes) := st
  match getCell board pos.1 pos.2 with
  | none => st
  | some neighbor =>
    if neighbor.state ≠ CellState.revealed ∧ neighbor.isMine = false then
      (mapCell board pos.1 pos.2 fun cell => { cell with state := CellState.revealed },
       revealed ++ [pos],
       if neighbor.neighborMines = 0 then pushes ++ [pos] else pushes)
    else st

/-- The `while (toCheck.length > 0)` loop of `revealEmptyCells` (main.js lines
840-863).  The JS array used as a stack (`push`/`pop` at the end) is modelled
head-first: pushes of one iteration are reversed onto the front.  `fuel` only
makes the recursion structural: each coordinate can enter the stack at most once
(its cell is marked `REVEALED` right before being pushed, and pushed cells must
not be `REVEALED`), so `rows*cols + 1` iterations always reach the empty stack. -/
def revealEmptyCellsGo (startRow startCol rows cols : Nat) :
    Nat → Board → List (Nat × Nat) → List (Nat × Nat) → Finset (Nat × Nat) →
    Board × List (Nat × Nat)
  | 0, board, revealed, _, _ => (board, revealed)
  | _ + 1, board, revealed, [], _ => (board, revealed)
  | fuel + 1, board, revealed, (row, col) :: rest, visited =>
    if (row, col) ∈ visited then
      revealEmptyCellsGo startRow startCol rows cols fuel board revealed rest visited
    else
      let visited' := insert (row, col) visited
      match getCell board row col with
      | none => revealEmptyCellsGo startRow startCol rows cols fuel board revealed rest visited'
      | some cell =>
        if cell.state = CellState.revealed ∧ (row ≠ startRow ∨ col ≠ startCol) then
          revealEmptyCellsGo startRow startCol rows cols fuel board revealed rest visited'
        else if cell.neighborMines = 0 ∧ cell.isMine = false then
          let (board', revealed', pushes) :=
            (neighborPositions rows cols row col).foldl classicVisit (board, revealed, [])
          revealEmptyCellsGo startRow startCol rows cols fuel board' revealed' (pushes.reverse ++ rest) visited'
        else
          revealEmptyCellsGo startRow startCol rows cols fuel board revealed rest visited'

/-- `revealEmptyCells(board, startRow, startCol)` from main.js lines 834-865:
returns the mutated board together with the list of cascaded coordinates. -/
def revealEmptyCells (board : Board) (startRow startCol : Nat) :
    Board × List (Nat × Nat) :=
  let rows := board.length
  let cols := (board.head?.map List.length).getD 0
  revealEmptyCellsGo startRow startCol rows cols (rows * cols + 1) board [] [(startRow, startCol)] ∅

/-- The `dr`/`dc` offsets of `raceRevealEmptyCells` (main.js lines 876-878), in
loop order, skipping `(0, 0)`. -/
def raceOffsets : List (Int × Int) :=
  [(-1, -1), (-1, 0), (-1, 1), (0, -1), (0, 1), (1, -1), (1, 0), (1, 1)]

/-- One offset step of the race reveal loop (main.js lines 879-887).  State is
`(visited, revealed, newRevealed, pushes)`; the shared master board is immutable. -/
def raceVisit (masterBoard : Board) (rows cols : Nat) (r c : Nat)
    (st : Finset (Nat × Nat) × Finset (Nat × Nat) × List (Nat × Nat) × List (Nat × Nat))
    (d : Int × Int) :
    Finset (Nat × Nat) × Finset (Nat × Nat) × List (Nat × Nat) × List (Nat × Nat) :=
  let (visited, revealed, newRevealed, pushes) := st
  let nr : Int := (r : Int) + d.1
  let nc : Int := (c : Int) + d.2
  if 0 ≤ nr ∧ nr < (rows : Int) ∧ 0 ≤ nc ∧ nc < (cols : Int) ∧ (nr.toNat, nc.toNat) ∉ visited then
    let nkey := (nr.toNat, nc.toNat)
    let visited' := insert nkey visited
    match getCell masterBoard nkey.1 nkey.2 with
    | none => (visited', revealed, newRevealed, pushes)
    | some neighbor =>
      if neighbor.isMine = false ∧ nkey ∉ revealed then
        (visited', insert nkey revealed, newRevealed ++ [nkey],
         if neighbor.neighborMines = 0 then pushes ++ [nkey] else pushes)
      else (visited', revealed, newRevealed, pushes)
  else st

/-- The `while (queue.length > 0)` loop of `raceRevealEmptyCells` (main.js lines
873-892); `queue.shift()` pops at the front, pushes append at the back.  As in
the classic loop, `fuel` only makes the recursion structural: every coordinate
is inserted into `visited` before it is queued, so it is queued at most once and
`rows*cols + 1` iterations always empty the queue. -/
def raceRevealEmptyCellsGo (masterBoard : Board) (rows cols : Nat) :
    Nat → Finset (Nat × Nat) → Finset (Nat × Nat) → List (Nat × Nat) →
    List (Nat × Nat) → Finset (Nat × Nat) × List (Nat × Nat)
  | 0, _, revealed, newRevealed, _ => (revealed, newRevealed)
  | _ + 1, _, revealed, newRevealed, [] => (revealed, newRevealed)
  | fuel + 1, visited, revealed, newRevealed, (r, c) :: rest =>
    match getCell masterBoard r c with
    | none => raceRevealEmptyCellsGo masterBoard rows cols fuel visited revealed newRevealed rest
    | some cell =>
      if cell.neighborMines = 0 ∧ cell.isMine = false then
        let (visited', revealed', newRevealed', pushes) :=
          raceOffsets.foldl (raceVisit masterBoard rows cols r c) (visited, revealed, newRevealed, [])
        raceRevealEmptyCellsGo masterBoard rows cols fuel visited' revealed' newRevealed' (rest ++ pushes)
      else
        raceRevealEmptyCellsGo masterBoard rows cols fuel visited revealed newRevealed rest

/-- `raceRevealEmptyCells(masterBoard, revealed, startRow, startCol)` from
main.js lines 867-894: returns the player's updated revealed set (the JS
function mutates the `revealed` argument) together with the `newRevealed` list. -/
def raceRevealEmptyCells (masterBoard : Board) (revealed : Finset (Nat × Nat))
    (startRow startCol : Nat) : Finset (Nat × Nat) × List (Nat × Nat) :=
  let rows := masterBoard.length
  let cols := (masterBoard.head?.map List.length).getD 0
  raceRevealEmptyCellsGo masterBoard rows cols (rows * cols + 1)
    {(startRow, startCol)} revealed [] [(startRow, startCol)]

/-- `checkGameOver(board)` from main.js lines 896-903: true iff every non-mine
cell is revealed. -/
def checkGameOver (board : Board) : Bool :=
  board.all fun row => row.all fun cell =>
    cell.isMine || decide (cell.state = CellState.revealed)

/-- `buildSafeBoard(board, gameOver)` from main.js lines 908-913: the classic
sanitized view.  A cell is passed through verbatim once the game is over or the
cell's shared state is `REVEALED`; otherwise `isMine`/`neighborMines` are
replaced by neutral values (`id`, `row`, `col`, `state` are kept). -/
def buildSafeBoard (board : Board) (gameOver : Bool) : Board :=
  board.map fun rowCells => rowCells.map fun cell =>
    if gameOver || decide (cell.state = CellState.revealed) then cell
    else { cell with isMine := false, neighborMines := 0 }

/-- `buildSafeBoardForRace(masterBoard, revealed, gameOver)` from main.js lines
915-920: the race sanitized view.  A cell is passed through verbatim once the
game is over or its coordinate is in the requesting player's revealed set;
otherwise it is reported as a hidden, mine-free, zero-count cell. -/
def buildSafeBoardForRace (masterBoard : Board) (revealed : Finset (Nat × Nat))
    (gameOver : Bool) : Board :=
  masterBoard.enum.map fun rowEntry =>
    rowEntry.2.enum.map fun cellEntry =>
      if gameOver || decide ((rowEntry.1, cellEntry.1) ∈ revealed) then cellEntry.2
      else { cellEntry.2 with isMine := false, neighborMines := 0, state := CellState.hidden }

/-- `GameStatus` from main.js (the `waiting` value is never given to a game by
`handleGameStart`, which creates games directly in `playing`). -/
inductive GStatus
  | waiting
  | playing
  | finished
deriving DecidableEq, Repr

/-- `GameMode` from main.js: `'classic' | 'race'`. -/
inductive GMode
  | classic
  | race
deriving DecidableEq, Repr

/-- An entry of the game's `players` JSON array: `{id, name, score}`. -/
structure GamePlayer where
  id : String
  name : String
  score : Int
deriving DecidableEq, Repr

/-- The game document fields read or written by the move handlers.  The JSON
strings `board`, `players`, `turnOrder`, `hostBoard`, `guestBoard` are carried
parsed; the per-player race reveal sets of `"r-c"` keys become coordinate sets. -/
structure Game where
  board : Board
  players : List GamePlayer
  turnOrder : List String
  currentTurnIndex : Nat
  currentTurn : String
  hostId : String
  guestId : String
  hostScore : Int
  guestScore : Int
  hostBoard : Finset (Nat × Nat)
  guestBoard : Finset (Nat × Nat)
  hostFinished : Bool
  guestFinished : Bool
  status : GStatus
  gameMode : GMode
  winnerId : Option String
  minesRevealed : Nat
  lastMoveBy : Option String
  lastMoveCell : Option (Nat × Nat)
deriving DecidableEq

/-- The rejections a move/start/create handler can return, one constructor per
`res.json({ok:false, error: ...})` message.  The spec's §7 taxonomy maps
`notPlaying` to `InvalidState` (400), `notYourTurn`, `notAPlayer` and `notHost`
to `Forbidden` (403), `alreadyRevealed`, `alreadyFinished` and `notFull` to
`Conflict`/`InvalidState` (400), and the input checks to `InvalidInput` (400). -/
inductive ApiError
  | notPlaying          -- 'Game is not in playing state'
  | wrongMode           -- 'Use /game/race-move for race mode' / 'Use /game/move for classic mode'
  | notYourTurn         -- 'Not your turn'
  | notAPlayer          -- 'You are not a player in this game'
  | invalidCoordinates  -- 'Invalid coordinates'
  | alreadyRevealed     -- 'Cell is already revealed' / 'Cell already revealed'
  | alreadyFinished     -- 'You already finished'
  | notHost             -- 'Only the host can start the game'
  | notFull             -- 'Lobby is not full'
  | badName             -- 'Name must be 1-50 characters'
  | badDifficulty       -- 'Invalid difficulty'
  | badMode             -- 'Invalid game mode'
  | generationExhausted -- models the random stream running out (the JS loop draws forever)
deriving DecidableEq, Repr

/-- The body of the JSON response of `/game/move` (main.js lines 533-541),
restricted to the game-state fields. -/
structure MoveResponse where
  board : Board
  players : List GamePlayer
  currentTurn : String
  currentTurnIndex : Nat
  status : GStatus
  winnerId : Option String
  minesRevealed : Nat
  hostScore : Int
  guestScore : Int
deriving DecidableEq

/-- The body of the JSON response of `/game/race-move` (main.js lines 658-664). -/
structure RaceMoveResponse where
  board : Board
  revealed : Finset (Nat × Nat)
  score : Int
  finished : Bool
  status : GStatus
  winnerId : Option String
deriving DecidableEq

/-- `gamePlayers[i].score = f(...)` on the parsed players array. -/
def updateScore (players : List GamePlayer) (i : Nat) (f : Int → Int) : List GamePlayer :=
  match players[i]? with
  | some p => players.set i { p with score := f p.score }
  | none => players

/-- `gamePlayers.find(p => p.id === id)?.score || 0` (main.js lines 515-516). -/
def scoreOf (players : List GamePlayer) (id : String) : Int :=
  ((players.find? fun p => p.id = id).map GamePlayer.score).getD 0

/-- The per-cell score increment `rc.neighborMines === 0 ? 1 : rc.neighborMines`
(main.js lines 491, 497, 607, 612). -/
def cellPoints (b : Board) (pos : Nat × Nat) : Int :=
  match getCell b pos.1 pos.2 with
  | some cc => if cc.neighborMines = 0 then 1 else (cc.neighborMines : Int)
  | none => 0

/-- `Math.max(...gamePlayers.map(p => p.score))` (main.js line 510); the player
list of a real game is never empty. -/
def maxScore (players : List GamePlayer) : Int :=
  ((players.map GamePlayer.score).max?).getD 0

/-- The game-over winner of main.js lines 510-512: the sole highest-score
player's id, or `'draw'`. -/
def classicWinner (players : List GamePlayer) : Option String :=
  let winners := players.filter fun p => p.score = maxScore players
  match winners with
  | [w] => some w.id
  | _ => some "draw"

/-- `board.length` — the row count the handlers read. -/
def rowsOf (b : Board) : Nat := b.length

/-- `board[0].length` — the column count the handlers read (0 for an empty board,
where the JS would crash). -/
def colsOf (b : Board) : Nat := (b.head?.map List.length).getD 0

/-- The success path of `handleGameMove` (main.js lines 473-541), after all
validation has passed: reveal the target, score it (mine penalty and turn pass,
or safe points plus cascade and turn retention), compute game over and winner,
and build the updated document plus the sanitized response.  The source
computes board/players/turn/minesRevealed in one `if (cell.isMine)` branch;
the translation evaluates the same condition once per field group
(`boardPlayers`, `turnPair`, `newMinesRevealed`), which is the same function
of the inputs. -/
def classicMoveApply (game : Game) (userId : String) (currentPlayerIndex : Nat)
    (r c : Nat) (cell : Cell) : Game × MoveResponse :=
  let board1 := mapCell game.board r c fun cl => { cl with state := CellState.revealed }
  let boardPlayers :=
    if cell.isMine then
      (board1, updateScore game.players currentPlayerIndex fun s => max 0 (s - 3))
    else
      let points : Int := if cell.neighborMines = 0 then 1 else (cell.neighborMines : Int)
      let players1 := updateScore game.players currentPlayerIndex fun s => s + points
      if cell.neighborMines = 0 then
        let cascade := revealEmptyCells board1 r c
        let addPoints := (cascade.2.map (cellPoints cascade.1)).sum
        (cascade.1, updateScore players1 currentPlayerIndex fun s => s + addPoints)
      else (board1, players1)
  let board2 := boardPlayers.1
  let players2 := boardPlayers.2
  let turnPair :=
    if cell.isMine then
      if game.turnOrder ≠ [] then
        ((game.currentTurnIndex + 1) % game.turnOrder.length,
         game.turnOrder.getD ((game.currentTurnIndex + 1) % game.turnOrder.length) "")
      else (game.currentTurnIndex, if userId = game.hostId then game.guestId else game.hostId)
    else (game.currentTurnIndex, userId)
  let nextTurnIndex := turnPair.1
  let nextTurn := turnPair.2
  let newMinesRevealed := if cell.isMine then game.minesRevealed + 1 else game.minesRevealed
  let gameOver := checkGameOver board2
  let status := if gameOver then GStatus.finished else game.status
  let winnerId := if gameOver then classicWinner players2 else none
  let hostScore := scoreOf players2 game.hostId
  let guestScore := scoreOf players2 game.guestId
  let game' : Game := { game with
    board := board2, players := players2,
    currentTurnIndex := nextTurnIndex, currentTurn := nextTurn,
    hostScore := hostScore, guestScore := guestScore,
    status := status, winnerId := winnerId,
    minesRevealed := newMinesRevealed,
    lastMoveBy := some userId, lastMoveCell := some (r, c) }
  (game', {
    board := buildSafeBoard board2 gameOver, players := players2,
    currentTurn := nextTurn, currentTurnIndex := nextTurnIndex,
    status := status, winnerId := winnerId,
    minesRevealed := newMinesRevealed,
    hostScore := hostScore, guestScore := guestScore })

/-- `handleGameMove` (main.js lines 432-547), the classic turn-based move
validator: all checks in source order, then the success path
`classicMoveApply`.  The db read/write and logging are the only parts elided. -/
def handleGameMove (game : Game) (userId : String) (row col : Int) :
    Except ApiError (Game × MoveResponse) :=
  if game.status ≠ GStatus.playing then .error .notPlaying
  else if game.gameMode = GMode.race then .error .wrongMode
  else if game.currentTurn ≠ userId then .error .notYourTurn
  else
    match game.players.findIdx? fun p => p.id = userId with
    | none => .error .notAPlayer
    | some currentPlayerIndex =>
      if row < 0 ∨ (rowsOf game.board : Int) ≤ row ∨ col < 0 ∨ (colsOf game.board : Int) ≤ col then
        .error .invalidCoordinates
      else
        match getCell game.board row.toNat col.toNat with
        | none => .error .invalidCoordinates  -- unreachable on rectangular boards
        | some cell =>
          if cell.state = CellState.revealed then .error .alreadyRevealed
          else .ok (classicMoveApply game userId currentPlayerIndex row.toNat col.toNat cell)

/-- The race reveal set of `userId`: `isHost ? game.hostBoard : game.guestBoard`
(main.js lines 584-585). -/
def raceRevealedOf (game : Game) (userId : String) : Finset (Nat × Nat) :=
  if userId = game.hostId then game.hostBoard else game.guestBoard

/-- `totalSafe` of main.js lines 617-625: the number of non-mine cells. -/
def countSafe (b : Board) : Nat :=
  (b.map fun rowCells => (rowCells.filter fun cell => !cell.isMine).length).sum

/-- `revealedSafe` of main.js lines 617-625: the number of non-mine cells whose
coordinate is in the player's revealed set. -/
def countRevealedSafe (b : Board) (revealed : Finset (Nat × Nat)) : Nat :=
  ((List.range b.length).map fun r =>
    ((List.range ((b.head?.map List.length).getD 0)).filter fun c =>
      !cellIsMine b r c && decide ((r, c) ∈ revealed)).length).sum

/-- The success path of `handleGameRaceMove` (main.js lines 599-664), after all
validation has passed: per-player reveal against the shared layout, scoring,
the completion check, the updated document and the sanitized response.  The
source updates `revealed` and `currentScore` in one `if (cell.isMine)` branch;
the translation carries them as the pair `revealedScore`. -/
def raceMoveApply (game : Game) (userId : String) (r c : Nat) (cell : Cell) :
    Game × RaceMoveResponse :=
  let isHost := userId = game.hostId
  let revealed0 := raceRevealedOf game userId
  let score0 := if isHost then game.hostScore else game.guestScore
  let revealedScore :=
    if cell.isMine then
      (insert (r, c) revealed0, max 0 (score0 - 3))
    else
      let afterTarget := insert (r, c) revealed0
      let base := score0 + (if cell.neighborMines = 0 then 1 else (cell.neighborMines : Int))
      if cell.neighborMines = 0 then
        let cascade := raceRevealEmptyCells game.board afterTarget r c
        (cascade.1, base + (cascade.2.map (cellPoints game.board)).sum)
      else (afterTarget, base)
  let revealed1 := revealedScore.1
  let score1 := revealedScore.2
  let totalSafe := countSafe game.board
  let revealedSafe := countRevealedSafe game.board revealed1
  let finished := decide (totalSafe ≤ revealedSafe)
  let status := if finished then GStatus.finished else game.status
  let winnerId := if finished then some userId else game.winnerId
  let game' : Game := { game with
    hostBoard := if isHost then revealed1 else game.hostBoard,
    guestBoard := if isHost then game.guestBoard else revealed1,
    hostScore := if isHost then score1 else game.hostScore,
    guestScore := if isHost then game.guestScore else score1,
    hostFinished := game.hostFinished || (decide isHost && finished),
    guestFinished := game.guestFinished || (!decide isHost && finished),
    status := status, winnerId := winnerId,
    lastMoveBy := some userId, lastMoveCell := some (r, c) }
  (game', {
    board := buildSafeBoardForRace game.board revealed1 finished,
    revealed := revealed1, score := score1, finished := finished,
    status := status, winnerId := winnerId })

/-- `handleGameRaceMove` (main.js lines 552-670), the race-mode move validator:
checks in source order, then the success path `raceMoveApply`.  The db
read/write, the best-effort lobby deletion and logging are the only parts
elided. -/
def handleGameRaceMove (game : Game) (userId : String) (row col : Int) :
    Except ApiError (Game × RaceMoveResponse) :=
  if game.status ≠ GStatus.playing then .error .notPlaying
  else if game.gameMode ≠ GMode.race then .error .wrongMode
  else if ¬ game.players.any fun p => p.id == userId then .error .notAPlayer
  else if row < 0 ∨ (rowsOf game.board : Int) ≤ row ∨ col < 0 ∨ (colsOf game.board : Int) ≤ col then
    .error .invalidCoordinates
  else
    let r := row.toNat
    let c := col.toNat
    if (r, c) ∈ raceRevealedOf game userId then .error .alreadyRevealed
    else if (userId = game.hostId) ∧ game.hostFinished then .error .alreadyFinished
    else if ¬ (userId = game.hostId) ∧ game.guestFinished then .error .alreadyFinished
    else
      match getCell game.board r c with
      | none => .error .invalidCoordinates  -- unreachable on rectangular boards
      | some cell => .ok (raceMoveApply game userId r c cell)

/-- The board generation pipeline of `handleGameStart` (main.js lines 372-376):
`createBoard`, then `placeMines` with a server-chosen safe cell, then
`calculateNeighborMines`. -/
def generate (cfg : GameConfig) (safeRow safeCol : Nat) (samples : List (Nat × Nat)) :
    Option Board :=
  (placeMines (createBoard cfg) cfg safeRow safeCol samples).map calculateNeighborMines

/-- `LobbyStatus` from main.js. -/
inductive LStatus
  | waiting
  | full
  | inGame
  | finishedL
deriving DecidableEq, Repr

/-- The lobby fields consumed by `handleGameStart`: host, roster (id/name pairs,
as stored in the `players` JSON string), status and game mode. -/
structure Lobby where
  hostId : String
  hostName : String
  players : List (String × String)
  status : LStatus
  gameMode : GMode
deriving DecidableEq, Repr

/-- `handleGameStart` (main.js lines 351-427): host/`FULL` checks, server-side
board generation, and construction of the game document (scores zeroed, turn
order host first, race games start with an empty `currentTurn`).  The
difficulty preset lookup and the db/permission plumbing are elided; the preset
`cfg` and the random draws (`safeRow`, `safeCol`, `samples`) are explicit
arguments. -/
def handleGameStart (lobby : Lobby) (userId : String) (cfg : GameConfig)
    (safeRow safeCol : Nat) (samples : List (Nat × Nat)) : Except ApiError Game :=
  if lobby.hostId ≠ userId then .error .notHost
  else if lobby.status ≠ LStatus.full then .error .notFull
  else
    match generate cfg safeRow safeCol samples with
    | none => .error .generationExhausted
    | some board =>
      let gamePlayers := lobby.players.map fun p => { id := p.1, name := p.2, score := 0 : GamePlayer }
      let turnOrder := lobby.hostId :: ((lobby.players.filter fun p => p.1 ≠ lobby.hostId).map Prod.fst)
      .ok {
        board := board,
        players := gamePlayers,
        turnOrder := turnOrder,
        currentTurnIndex := 0,
        currentTurn := if lobby.gameMode = GMode.race then "" else lobby.hostId,
        hostId := lobby.hostId,
        guestId := if 1 < lobby.players.length then ((lobby.players.get? 1).map Prod.fst).getD "" else "",
        hostScore := 0, guestScore := 0,
        hostBoard := ∅, guestBoard := ∅,
        hostFinished := false, guestFinished := false,
        status := GStatus.playing,
        gameMode := lobby.gameMode,
        winnerId := none, minesRevealed := 0,
        lastMoveBy := none, lastMoveCell := none }

/-- `VALID_DIFFICULTIES` from main.js line 28. -/
def VALID_DIFFICULTIES : List String := ["EASY", "MEDIUM", "HARD"]

/-- `VALID_GAME_MODES` from main.js line 29. -/
def VALID_GAME_MODES : List String := ["classic", "race"]

/-- `parseInt(maxPlayers) || 2` (main.js line 134): a missing or unparseable
value (`NaN`) and the parse result `0` both fall back to `2`. -/
def parseIntOr2 : Option Int → Int
  | none => 2
  | some v => if v = 0 then 2 else v

/-- JS `String.prototype.trim()`: strip whitespace from both ends.  Implemented
over the character list (Lean's own `String.trim` is byte-position based and
does not evaluate inside the kernel). -/
def jsTrim (s : String) : String :=
  ⟨((s.data.dropWhile Char.isWhitespace).reverse.dropWhile Char.isWhitespace).reverse⟩

/-- The lobby view returned by `handleLobbyCreate`, restricted to the fields
the claims are about. -/
structure LobbyView where
  name : String
  hostId : String
  maxPlayers : Int
  status : LStatus
  gameMode : String
deriving DecidableEq, Repr

/-- The validation and construction logic of `handleLobbyCreate` (main.js lines
120-205): name/difficulty/mode validation in source order, then
`maxP = Math.min(Math.max(parseInt(maxPlayers) || 2, 2), 4)` and the lobby
document.  The "already in a lobby" db scan, password hashing and persistence
are elided; no rejection path other than the three input checks exists. -/
def handleLobbyCreate (userId : String) (name : String) (difficulty : String)
    (maxPlayers : Option Int) (gameMode : Option String) : Except ApiError LobbyView :=
  if (jsTrim name).length < 1 ∨ 50 < (jsTrim name).length then .error .badName
  else if ¬ difficulty ∈ VALID_DIFFICULTIES then .error .badDifficulty
  else
    let mode := gameMode.getD "classic"
    if ¬ mode ∈ VALID_GAME_MODES then .error .badMode
    else
      let maxP := min (max (parseIntOr2 maxPlayers) 2) 4
      .ok { name := jsTrim name, hostId := userId, maxPlayers := maxP,
            status := LStatus.waiting, gameMode := mode }

/-! ## Derived values and auxiliary predicates -/

/-- The cascade score bonus of a classic safe move (main.js lines 493-499): the
per-cell formula summed over the coordinates returned by `revealEmptyCells` on
the board with the target already revealed; zero when the target's
`neighborMines` is nonzero. -/
def classicCascadeBonus (game : Game) (r c : Nat) (cell : Cell) : Int :=
  if cell.neighborMines = 0 then
    let board1 := mapCell game.board r c fun cl => { cl with state := CellState.revealed }
    let cascade := revealEmptyCells board1 r c
    (cascade.2.map (cellPoints cascade.1)).sum
  else 0

/-- Every cell of the board is hidden (the state of a freshly generated game). -/
def allHidden (b : Board) : Prop :=
  ∀ rowCells ∈ b, ∀ cl ∈ rowCells, cl.state = CellState.hidden

/-- The grid coordinates of a rows×cols board. -/
def gridPositions (rows cols : Nat) : Finset (Nat × Nat) :=
  Finset.range rows ×ˢ Finset.range cols

/-- The set of mined coordinates of a board. -/
def minesFinset (b : Board) (rows cols : Nat) : Finset (Nat × Nat) :=
  (gridPositions rows cols).filter fun p => cellIsMine b p.1 p.2 = true

/-- Specification-side Moore neighborhood: the mined grid cells at Chebyshev
distance exactly 1 from `(r, c)` (distinct from it, both coordinates within
±1).  Independent of the clamped-loop formulation of the source. -/
def mooreMineSet (b : Board) (rows cols r c : Nat) : Finset (Nat × Nat) :=
  (gridPositions rows cols).filter fun p =>
    p ≠ (r, c) ∧ ((p.1 : Int) - r).natAbs ≤ 1 ∧ ((p.2 : Int) - c).natAbs ≤ 1
      ∧ cellIsMine b p.1 p.2 = true

/-- The number of mines among the at-most-8 Moore neighbors of `(r, c)`. -/
def mooreMineCount (b : Board) (rows cols r c : Nat) : Nat :=
  (mooreMineSet b rows cols r c).card

/-- Rectangularity: `rows` rows, each of length `cols`. -/
def boardShape (b : Board) (rows cols : Nat) : Prop :=
  b.length = rows ∧ ∀ rowCells ∈ b, rowCells.length = cols

/-- Placeholder response used only as a `getD` fallback that is never hit. -/
def emptyMoveResponse : MoveResponse :=
  { board := [], players := [], currentTurn := "", currentTurnIndex := 0,
    status := GStatus.playing, winnerId := none, minesRevealed := 0,
    hostScore := 0, guestScore := 0 }

/-- Placeholder race response used only as a `getD` fallback that is never hit. -/
def emptyRaceResponse : RaceMoveResponse :=
  { board := [], revealed := ∅, score := 0, finished := false,
    status := GStatus.playing, winnerId := none }

/-! ## Concrete fixtures -/

/-- A mine-free 1×4 board, all cells hidden, every `neighborMines = 0` (this is
exactly `calculateNeighborMines (createBoard ⟨1, 4, 0⟩)`). -/
def lineBoard4 : Board :=
  [[{ row := 0, col := 0, isMine := false, neighborMines := 0, state := CellState.hidden },
    { row := 0, col := 1, isMine := false, neighborMines := 0, state := CellState.hidden },
    { row := 0, col := 2, isMine := false, neighborMines := 0, state := CellState.hidden },
    { row := 0, col := 3, isMine := false, neighborMines := 0, state := CellState.hidden }]]

/-- A 2×2 board with a single mine at `(0,0)`: the three safe cells each count
one neighboring mine. -/
def mineBoard2 : Board :=
  [[{ row := 0, col := 0, isMine := true, neighborMines := 0, state := CellState.hidden },
    { row := 0, col := 1, isMine := false, neighborMines := 1, state := CellState.hidden }],
   [{ row := 1, col := 0, isMine := false, neighborMines := 1, state := CellState.hidden },
    { row := 1, col := 1, isMine := false, neighborMines := 1, state := CellState.hidden }]]

/-- A fresh two-player classic game on `mineBoard2`, host `"A"` to move. -/
def classicGame2 : Game := {
  board := mineBoard2,
  players := [{ id := "A", name := "Alice", score := 0 }, { id := "B", name := "Bob", score := 0 }],
  turnOrder := ["A", "B"],
  currentTurnIndex := 0, currentTurn := "A",
  hostId := "A", guestId := "B",
  hostScore := 0, guestScore := 0,
  hostBoard := ∅, guestBoard := ∅,
  hostFinished := false, guestFinished := false,
  status := GStatus.playing, gameMode := GMode.classic,
  winnerId := none, minesRevealed := 0,
  lastMoveBy := none, lastMoveCell := none }

/-- The game document after player `A` reveals the mine at `(0,0)` of
`classicGame2`. -/
def c1GameAfterA : Game :=
  ((handleGameMove classicGame2 "A" 0 0).toOption.map Prod.fst).getD classicGame2

/-- The view returned to player `B` for the follow-up move at `(1,1)`. -/
def c1ViewForB : Option MoveResponse :=
  (handleGameMove c1GameAfterA "B" 1 1).toOption.map Prod.snd

/-- The accepted move of the C1 trace: `"B"` reveals `(1,1)` after `"A"`'s
mine hit. -/
def c1Pair : Game × MoveResponse :=
  ((handleGameMove c1GameAfterA "B" 1 1).toOption).getD (classicGame2, emptyMoveResponse)

/-- A two-cell race game on a 2×1 board whose only safe cell is `(0,0)`;
host `"A"` to reveal it. -/
def raceGame21 : Game := {
  board := [[{ row := 0, col := 0, isMine := false, neighborMines := 1, state := CellState.hidden }],
            [{ row := 1, col := 0, isMine := true, neighborMines := 0, state := CellState.hidden }]],
  players := [{ id := "A", name := "Alice", score := 0 }, { id := "B", name := "Bob", score := 0 }],
  turnOrder := ["A", "B"],
  currentTurnIndex := 0, currentTurn := "",
  hostId := "A", guestId := "B",
  hostScore := 0, guestScore := 0,
  hostBoard := ∅, guestBoard := ∅,
  hostFinished := false, guestFinished := false,
  status := GStatus.playing, gameMode := GMode.race,
  winnerId := none, minesRevealed := 0,
  lastMoveBy := none, lastMoveCell := none }

/-- The concrete accepted move of the C5 scenario: `"A"` reveals the mine at
`(0,0)` of `classicGame2`. -/
def c5Pair : Game × MoveResponse :=
  ((handleGameMove classicGame2 "A" 0 0).toOption).getD (classicGame2, emptyMoveResponse)

/-- A full two-player lobby hosted by `"A"`, ready to start. -/
def c10Lobby : Lobby :=
  { hostId := "A", hostName := "Alice", players := [("A", "Alice"), ("B", "Bob")],
    status := LStatus.full, gameMode := GMode.classic }

/-- The game created by starting `c10Lobby` on a 2×2 board with one mine drawn
at `(1,1)` and safe cell `(0,0)`. -/
def c10StartGame : Game :=
  ((handleGameStart c10Lobby "A" { rows := 2, cols := 2, mines := 1 } 0 0 [(1, 1)]).toOption).getD
    classicGame2

/-- The concrete accepted race move of the C6 scenario, reused for C10. -/
def c10RacePair : Game × RaceMoveResponse :=
  ((handleGameRaceMove raceGame21 "A" 0 0).toOption).getD (raceGame21, emptyRaceResponse)

/-- The concrete generated board of the C4 scenario: 2×2, one mine drawn at
`(1,1)`, safe cell `(0,0)`. -/
def c4Board : Board :=
  (generate { rows := 2, cols := 2, mines := 1 } 0 0 [(1, 1)]).getD []

/-! ## Helper inversions -/

/-- `Except.toOption` pinning down the success value pins down the whole
result. -/
theorem ok_of_toOption_eq_some {ε α : Type} {e : Except ε α}
    {a : α} (h : e.toOption = some a) : e = .ok a := by
  cases e with
  | error err => simp [Except.toOption] at h
  | ok v => simpa [Except.toOption] using h

/-! ## C2 — reveal cascade -/

/-- Claim C2: (code_bug evaluation).  On the mine-free 1×4 board with every cell
hidden, revealing the zero-neighbor target `(0,0)` must cascade through
`(0,1)` to `(0,2)` and `(0,3)`.  The classic `revealEmptyCells` reveals only
the first ring `[(0,1)]` and leaves `(0,2)` hidden, because each pushed
neighbor is marked `REVEALED` before it is popped and the loop's guard
`cell.state === REVEALED && not start → continue` then skips its expansion; the
race-mode `raceRevealEmptyCells` performs the full flood fill on the same
input, as does the client-side `revealCells` of `src/gameUtils.ts`. -/
theorem C2_classic_cascade_stops_after_one_ring :
    (revealEmptyCells lineBoard4 0 0).2 = [(0, 1)]
  ∧ ((getCell (revealEmptyCells lineBoard4 0 0).1 0 2).map Cell.state) = some CellState.hidden
  ∧ (raceRevealEmptyCells lineBoard4 ∅ 0 0).2 = [(0, 1), (0, 2), (0, 3)] := by decide

/-! ## C3 — classic/race reveal equivalence -/

/-- Claim C3: (code_bug evaluation).  For the all-hidden 1×4 board and the empty
per-player revealed set — a board and set in exact correspondence (a cell is
`REVEALED` iff its coordinate is in the set) — the classic reveal and the race
reveal of the same zero-neighbor start `(0,0)` produce different coordinate
sets: `{(0,1)}` versus `{(0,1),(0,2),(0,3)}`.  The equivalence fails because of
the classic cascade defect recorded under C2. -/
theorem C3_classic_race_reveal_differ :
    (revealEmptyCells lineBoard4 0 0).2.toFinset ≠
      (raceRevealEmptyCells lineBoard4 ∅ 0 0).2.toFinset := by decide

/-! ## C1 — sanitization -/

/-- Claim C1: (counterexample).  A concrete classic trace on `classicGame2`:
player `A` reveals the mine at `(0,0)` (turn passes to `B`), then player `B`
reveals the safe cell `(1,1)`.  The view returned to `B` still has
`status = PLAYING`, yet reports `isMine = true` for `(0,0)` — a cell `B` never
personally revealed (B's only move was `(1,1)`).  In classic mode the shared
board discloses every revealed cell to every caller, so the claim as stated is
false. -/
theorem C1_counterexample :
    (handleGameMove classicGame2 "A" 0 0).isOk = true
  ∧ c1GameAfterA.currentTurn = "B"
  ∧ (c1ViewForB.map MoveResponse.status) = some GStatus.playing
  ∧ ((handleGameMove c1GameAfterA "B" 1 1).toOption.map fun s => s.1.lastMoveCell)
      = some (some (1, 1))
  ∧ (c1ViewForB.map fun v => (getCell v.board 0 0).map fun cl => (cl.isMine, cl.neighborMines))
      = some (some (true, 0)) := by decide

/-! ## C9 — createLobby max-players -/

/-- Claim C9: (counterexample).  `createLobby` with the in-claimed-range request
`maxPlayers = 5` succeeds but stores `maxPlayers = 4` (the server clamps with
`Math.min(Math.max(parseInt(maxPlayers) || 2, 2), 4)`), and the out-of-range
request `maxPlayers = 100` is not rejected with `InvalidInput` either — it also
succeeds with `maxPlayers = 4`. -/
theorem C9_counterexample :
    (handleLobbyCreate "u1" "room" "EASY" (some 5) none).toOption.map LobbyView.maxPlayers
      = some 4
  ∧ (handleLobbyCreate "u1" "room" "EASY" (some 100) none).toOption.map LobbyView.maxPlayers
      = some 4 := by decide

/-! ## C7 — turn integrity (classic) -/

/-- Claim C7: in a classic game in `PLAYING` status, a move submitted by any
player other than `game.currentTurn` is rejected with the `Forbidden`
error `'Not your turn'`; the handler returns no updated document, so the board,
scores, turn pointer, status and every other game field are untouched. -/
theorem C7_turn_integrity (g : Game) (userId : String) (row col : Int)
    (hstat : g.status = GStatus.playing) (hmode : g.gameMode = GMode.classic)
    (hturn : userId ≠ g.currentTurn) :
    handleGameMove g userId row col = .error ApiError.notYourTurn := by
  simp [handleGameMove, hstat, hmode, Ne.symm hturn]

/-- Claim C7: witness: the concrete game `classicGame2` (turn `"A"`) rejects a
move by `"B"`. -/
theorem C7_witness :
    handleGameMove classicGame2 "B" 0 0 = .error ApiError.notYourTurn :=
  C7_turn_integrity classicGame2 "B" 0 0 rfl rfl (by decide)

/-! ## C8 — idempotent reject on an already-revealed cell -/

/-- Claim C8: In a game in `PLAYING` status, a move targeting an
already-revealed cell — on the shared board in classic mode, in the mover's
own revealed set in race mode — passes through the earlier checks and is then
rejected with the `Conflict` error `'Cell (is) already revealed'`; the handler
returns no updated document, so board, revealed sets and scores are untouched. -/
theorem C8_already_revealed_conflict :
    (∀ (g : Game) (userId : String) (row col : Int) (i : Nat) (cell : Cell),
      g.status = GStatus.playing → g.gameMode = GMode.classic →
      g.currentTurn = userId →
      (g.players.findIdx? fun p => p.id = userId) = some i →
      0 ≤ row → row < (rowsOf g.board : Int) → 0 ≤ col → col < (colsOf g.board : Int) →
      getCell g.board row.toNat col.toNat = some cell →
      cell.state = CellState.revealed →
      handleGameMove g userId row col = .error ApiError.alreadyRevealed)
  ∧ (∀ (g : Game) (userId : String) (row col : Int),
      g.status = GStatus.playing → g.gameMode = GMode.race →
      (g.players.any fun p => p.id == userId) = true →
      0 ≤ row → row < (rowsOf g.board : Int) → 0 ≤ col → col < (colsOf g.board : Int) →
      (row.toNat, col.toNat) ∈ raceRevealedOf g userId →
      handleGameRaceMove g userId row col = .error ApiError.alreadyRevealed) := by
  constructor
  · intro g userId row col i cell hstat hmode hturn hfind hr0 hr1 hc0 hc1 hget hrev
    simp [handleGameMove, hstat, hmode, hturn, hfind, hget, hrev,
      not_lt.mpr hr0, not_le.mpr hr1, not_lt.mpr hc0, not_le.mpr hc1]
  · intro g userId row col hstat hmode hmem hr0 hr1 hc0 hc1 hrev
    simp [handleGameRaceMove, hstat, hmode, hmem, hrev,
      not_lt.mpr hr0, not_le.mpr hr1, not_lt.mpr hc0, not_le.mpr hc1]

/-- Claim C8: witness: on `classicGame2` with its mine cell `(0,0)` already
revealed (and turn left with `"A"`), `"A"`'s repeat move at `(0,0)` is a
`Conflict`, and in a race variant of the game with `(0,0)` in `"A"`'s revealed
set the same rejection fires. -/
theorem C8_witness :
    handleGameMove
      { classicGame2 with
        board := mapCell mineBoard2 0 0 fun cl => { cl with state := CellState.revealed } }
      "A" 0 0 = .error ApiError.alreadyRevealed
  ∧ handleGameRaceMove
      { classicGame2 with gameMode := GMode.race, hostBoard := {(0, 0)} }
      "A" 0 0 = .error ApiError.alreadyRevealed := by
  constructor
  · exact C8_already_revealed_conflict.1 _ "A" 0 0 0
      ((getCell (mapCell mineBoard2 0 0 fun cl => { cl with state := CellState.revealed })
          0 0).getD dummyCell)
      rfl rfl rfl (by decide) (by decide) (by decide) (by decide) (by decide)
      (by decide) (by decide)
  · exact C8_already_revealed_conflict.2 _ "A" 0 0 rfl rfl (by decide)
      (by decide) (by decide) (by decide) (by decide) (by decide)

/-! ## C6 — race completion -/

/-- Success inversion for the race handler: an accepted race move is exactly
`raceMoveApply` at the target cell. -/
theorem handleGameRaceMove_ok_elim {g : Game} {userId : String} {row col : Int}
    {pr : Game × RaceMoveResponse}
    (h : handleGameRaceMove g userId row col = .ok pr) :
    ∃ cell, getCell g.board row.toNat col.toNat = some cell ∧
      pr = raceMoveApply g userId row.toNat col.toNat cell := by
  unfold handleGameRaceMove at h
  dsimp only at h
  repeat' split at h
  all_goals first
  | exact Except.noConfusion h
  | exact ⟨_, by assumption, (Except.ok.inj h).symm⟩

/-- The fields of `raceMoveApply` that the completion check drives: the mover's
stored revealed set is the response's set, and status/winner flip exactly when
the revealed-safe count reaches the safe-cell total. -/
theorem raceMoveApply_spec (game : Game) (userId : String) (r c : Nat) (cell : Cell) :
    raceRevealedOf (raceMoveApply game userId r c cell).1 userId
      = (raceMoveApply game userId r c cell).2.revealed
  ∧ (raceMoveApply game userId r c cell).1.status
      = (if countSafe game.board ≤
            countRevealedSafe game.board (raceMoveApply game userId r c cell).2.revealed
         then GStatus.finished else game.status)
  ∧ (raceMoveApply game userId r c cell).1.winnerId
      = (if countSafe game.board ≤
            countRevealedSafe game.board (raceMoveApply game userId r c cell).2.revealed
         then some userId else game.winnerId) := by
  unfold raceMoveApply
  dsimp only
  by_cases hh : userId = game.hostId <;>
    by_cases hfin : countSafe game.board ≤ countRevealedSafe game.board
      (if cell.isMine then
        (insert (r, c) (raceRevealedOf game userId),
         max 0 ((if userId = game.hostId then game.hostScore else game.guestScore) - 3))
      else
        let afterTarget := insert (r, c) (raceRevealedOf game userId)
        let base := (if userId = game.hostId then game.hostScore else game.guestScore)
          + (if cell.neighborMines = 0 then 1 else (cell.neighborMines : Int))
        if cell.neighborMines = 0 then
          let cascade := raceRevealEmptyCells game.board afterTarget r c
          (cascade.1, base + (cascade.2.map (cellPoints game.board)).sum)
        else (afterTarget, base)).1 <;>
    simp [hh, hfin, raceRevealedOf]

/-- Claim C6: if an accepted race-mode move leaves the mover's revealed-safe
count at or above the number of safe cells, the game transitions to `FINISHED`
with the mover as winner, and every subsequent race move on that game — by any
player, at any coordinates — is rejected with the `InvalidState` error
`'Game is not in playing state'`. -/
theorem C6_race_completion (g : Game) (userId : String) (row col : Int)
    (g' : Game) (resp : RaceMoveResponse)
    (hmove : handleGameRaceMove g userId row col = .ok (g', resp))
    (hfin : countSafe g.board ≤ countRevealedSafe g.board (raceRevealedOf g' userId)) :
    g'.status = GStatus.finished ∧ g'.winnerId = some userId
  ∧ ∀ (uid2 : String) (row2 col2 : Int),
      handleGameRaceMove g' uid2 row2 col2 = .error ApiError.notPlaying := by
  obtain ⟨cell, hget, heq⟩ := handleGameRaceMove_ok_elim hmove
  obtain ⟨hrev, hstat, hwin⟩ := raceMoveApply_spec g userId row.toNat col.toNat cell
  have hg' : g' = (raceMoveApply g userId row.toNat col.toNat cell).1 :=
    congrArg Prod.fst heq
  rw [hg'] at hfin ⊢
  rw [hrev] at hfin
  have hs : (raceMoveApply g userId row.toNat col.toNat cell).1.status = GStatus.finished := by
    rw [hstat, if_pos hfin]
  refine ⟨hs, ?_, ?_⟩
  · rw [hwin, if_pos hfin]
  · intro uid2 row2 col2
    simp [handleGameRaceMove, hs]

/-- Claim C6 witness: in the concrete race game `raceGame21`, `"A"` reveals
the only safe cell; the resulting game (`c10RacePair.1`) is `FINISHED` with
`winnerId = "A"`, and `"B"`'s follow-up move is rejected as not playing. -/
theorem C6_witness :
    c10RacePair.1.status = GStatus.finished
  ∧ c10RacePair.1.winnerId = some "A"
  ∧ handleGameRaceMove c10RacePair.1 "B" 0 0 = .error ApiError.notPlaying := by
  have h := C6_race_completion raceGame21 "A" 0 0 c10RacePair.1 c10RacePair.2
    (ok_of_toOption_eq_some (by decide)) (by decide)
  exact ⟨h.1, h.2.1, h.2.2 "B" 0 0⟩

/-! ## C5 — classic scoring and turn passing -/

/-- Success inversion for the classic handler: an accepted classic move is
exactly `classicMoveApply` at the found player index and target cell, and the
target was not previously revealed. -/
theorem handleGameMove_ok_elim {g : Game} {userId : String} {row col : Int}
    {pr : Game × MoveResponse}
    (h : handleGameMove g userId row col = .ok pr) :
    g.status = GStatus.playing ∧
    ∃ i cell, (g.players.findIdx? fun p => p.id = userId) = some i ∧
      getCell g.board row.toNat col.toNat = some cell ∧
      cell.state ≠ CellState.revealed ∧
      pr = classicMoveApply g userId i row.toNat col.toNat cell := by
  unfold handleGameMove at h
  repeat' split at h
  all_goals first
  | exact Except.noConfusion h
  | exact ⟨not_not.mp ‹¬g.status ≠ GStatus.playing›,
      _, _, by assumption, by assumption, by assumption, (Except.ok.inj h).symm⟩

/-- Updating the same player slot twice composes the two score updates. -/
theorem updateScore_updateScore (players : List GamePlayer) (i : Nat) (f g : Int → Int) :
    updateScore (updateScore players i f) i g = updateScore players i fun s => g (f s) := by
  unfold updateScore
  cases h : players[i]? with
  | none => simp [h]
  | some p =>
    have hlen : i < players.length := (List.getElem?_eq_some_iff.mp h).1
    have hset : (players.set i { p with score := f p.score })[i]?
        = some { p with score := f p.score } := List.getElem?_set_self hlen
    simp [h, hset, List.set_set]

/-- If `findIdx?` locates `userId` at index `i`, then a score update at `i`
changes exactly that player's score as read back by `scoreOf`. -/
theorem scoreOf_updateScore (userId : String) (f : Int → Int) :
    ∀ (players : List GamePlayer) (i : Nat),
      (players.findIdx? fun p => p.id = userId) = some i →
      scoreOf (updateScore players i f) userId = f (scoreOf players userId)
  | [], i => by intro h; simp [List.findIdx?] at h
  | p :: ps, i => by
    intro h
    rw [List.findIdx?_cons, List.findIdx?_succ] at h
    by_cases hp : p.id = userId
    · rw [if_pos (by simp [hp])] at h
      obtain rfl : (0 : Nat) = i := Option.some.inj h
      unfold updateScore scoreOf
      simp [List.find?_cons_of_pos, hp]
    · rw [if_neg (by simp [hp])] at h
      obtain ⟨j, hj, rfl⟩ := Option.map_eq_some'.mp h
      have hcons : updateScore (p :: ps) (j + 1) f = p :: updateScore ps j f := by
        unfold updateScore
        rw [List.getElem?_cons_succ]
        cases hq : ps[j]? with
        | none => simp [hq]
        | some q => simp [hq]
      rw [hcons]
      unfold scoreOf
      rw [List.find?_cons_of_neg _ (by simpa using hp),
        List.find?_cons_of_neg _ (by simpa using hp)]
      exact scoreOf_updateScore userId f ps j hj

/-- Claim C5: For every accepted classic move: on a mine the mover's score
becomes `max 0 (score - 3)`, `minesRevealed` is incremented and the turn passes
to the next id in turn order with wrap-around (in particular a mover at score
0 stays at 0); on a safe cell the mover's score grows by
`(1 if neighborMines == 0 else neighborMines)` plus the same formula summed
over every cascaded cell, and the mover retains the turn. -/
theorem C5_classic_scoring (g : Game) (userId : String) (row col : Int)
    (g' : Game) (resp : MoveResponse) (cell : Cell)
    (hmove : handleGameMove g userId row col = .ok (g', resp))
    (hget : getCell g.board row.toNat col.toNat = some cell)
    (hturnOrder : g.turnOrder ≠ []) :
    (cell.isMine = true →
        scoreOf g'.players userId = max 0 (scoreOf g.players userId - 3)
      ∧ g'.minesRevealed = g.minesRevealed + 1
      ∧ g'.currentTurn = g.turnOrder.getD ((g.currentTurnIndex + 1) % g.turnOrder.length) ""
      ∧ (scoreOf g.players userId = 0 → scoreOf g'.players userId = 0))
  ∧ (cell.isMine = false →
        scoreOf g'.players userId = scoreOf g.players userId
          + (if cell.neighborMines = 0 then 1 else (cell.neighborMines : Int))
          + classicCascadeBonus g row.toNat col.toNat cell
      ∧ g'.currentTurn = userId) := by
  obtain ⟨-, i, cell', hfind, hget', -, heq⟩ := handleGameMove_ok_elim hmove
  obtain rfl : cell = cell' := by rw [hget] at hget'; exact Option.some.inj hget'
  have hg' : g' = (classicMoveApply g userId i row.toNat col.toNat cell).1 :=
    congrArg Prod.fst heq
  constructor
  · intro hmine
    rw [hg']
    simp only [classicMoveApply, hmine, if_true, hturnOrder, ne_eq,
      not_false_eq_true, ite_true]
    refine ⟨scoreOf_updateScore userId _ g.players i hfind, by trivial, by trivial, ?_⟩
    intro h0
    rw [scoreOf_updateScore userId _ g.players i hfind, h0]
    decide
  · intro hsafe
    rw [hg']
    simp only [classicMoveApply, classicCascadeBonus, hsafe, Bool.false_eq_true, if_false]
    by_cases hz : cell.neighborMines = 0
    · simp only [hz, if_true, ite_true]
      refine ⟨?_, by trivial⟩
      rw [updateScore_updateScore, scoreOf_updateScore userId _ g.players i hfind]
    · simp only [hz, if_false, ite_false]
      refine ⟨?_, by trivial⟩
      rw [scoreOf_updateScore userId _ g.players i hfind]
      ring

/-- Claim C5: witness: on `classicGame2`, `"A"` (score 0) reveals the mine at
`(0,0)`: the score is floored at 0, `minesRevealed` becomes 1 and the turn
passes to `"B"`. -/
theorem C5_witness :
    scoreOf c5Pair.1.players "A" = max 0 (scoreOf classicGame2.players "A" - 3)
  ∧ c5Pair.1.minesRevealed = classicGame2.minesRevealed + 1
  ∧ c5Pair.1.currentTurn = "B"
  ∧ (scoreOf classicGame2.players "A" = 0 → scoreOf c5Pair.1.players "A" = 0) := by
  have h := (C5_classic_scoring classicGame2 "A" 0 0 c5Pair.1 c5Pair.2
      ((getCell classicGame2.board 0 0).getD dummyCell)
      (ok_of_toOption_eq_some (by decide)) (by decide) (by decide)).1 (by decide)
  exact ⟨h.1, h.2.1, by rw [h.2.2.1]; decide, h.2.2.2⟩

/-! ## C10 — score non-negativity -/

/-- The per-cell score increment is always non-negative (it is `1` or a cast
neighbor count). -/
theorem cellPoints_nonneg (b : Board) (pos : Nat × Nat) : 0 ≤ cellPoints b pos := by
  unfold cellPoints
  cases getCell b pos.1 pos.2 with
  | none => exact le_refl 0
  | some cc =>
    by_cases hz : cc.neighborMines = 0
    · simp [hz]
    · simp [hz]

/-- A score update with a nonnegativity-preserving function keeps every roster
score non-negative. -/
theorem updateScore_nonneg {players : List GamePlayer} {i : Nat} {f : Int → Int}
    (hf : ∀ s, 0 ≤ s → 0 ≤ f s) (hp : ∀ p ∈ players, 0 ≤ p.score) :
    ∀ p ∈ updateScore players i f, 0 ≤ p.score := by
  intro p hmem
  unfold updateScore at hmem
  cases hq : players[i]? with
  | none => rw [hq] at hmem; exact hp p hmem
  | some q =>
    rw [hq] at hmem
    rcases List.mem_or_eq_of_mem_set hmem with h | rfl
    · exact hp p h
    · exact hf _ (hp q (List.getElem?_mem hq))

/-- `scoreOf` of a roster of non-negative scores is non-negative. -/
theorem scoreOf_nonneg {players : List GamePlayer} (hp : ∀ p ∈ players, 0 ≤ p.score)
    (id : String) : 0 ≤ scoreOf players id := by
  unfold scoreOf
  cases hf : players.find? fun p => p.id = id with
  | none => exact le_refl 0
  | some p => exact hp p (List.mem_of_find?_eq_some hf)

/-- Claim C10: Scores are never negative: `handleGameStart` creates every score
at 0 (roster, host and guest), and both move handlers preserve non-negativity —
the mine penalty is floored at 0 and every safe reveal adds a strictly positive
amount — so no persisted game document or response ever carries a negative
score. -/
theorem C10_score_nonneg :
    (∀ (lobby : Lobby) (userId : String) (cfg : GameConfig) (sr sc : Nat)
       (samples : List (Nat × Nat)) (g : Game),
      handleGameStart lobby userId cfg sr sc samples = .ok g →
      (∀ p ∈ g.players, p.score = 0) ∧ g.hostScore = 0 ∧ g.guestScore = 0)
  ∧ (∀ (g : Game) (userId : String) (row col : Int) (g' : Game) (resp : MoveResponse),
      handleGameMove g userId row col = .ok (g', resp) →
      (∀ p ∈ g.players, 0 ≤ p.score) →
      (∀ p ∈ g'.players, 0 ≤ p.score) ∧ 0 ≤ g'.hostScore ∧ 0 ≤ g'.guestScore)
  ∧ (∀ (g : Game) (userId : String) (row col : Int) (g' : Game) (resp : RaceMoveResponse),
      handleGameRaceMove g userId row col = .ok (g', resp) →
      0 ≤ g.hostScore → 0 ≤ g.guestScore →
      0 ≤ g'.hostScore ∧ 0 ≤ g'.guestScore) := by
  refine ⟨?_, ?_, ?_⟩
  · intro lobby userId cfg sr sc samples g h
    unfold handleGameStart at h
    repeat' split at h
    all_goals first
    | exact Except.noConfusion h
    | (obtain rfl := Except.ok.inj h
       refine ⟨?_, rfl, rfl⟩
       intro p hp
       obtain ⟨q, -, rfl⟩ := List.mem_map.mp hp
       rfl)
  · intro g userId row col g' resp hmove hp
    obtain ⟨-, i, cell, -, -, -, heq⟩ := handleGameMove_ok_elim hmove
    have hg' : g' = (classicMoveApply g userId i row.toNat col.toNat cell).1 :=
      congrArg Prod.fst heq
    rw [hg']
    unfold classicMoveApply
    dsimp only
    have hplayers : ∀ p ∈ (if cell.isMine = true then
        (mapCell g.board row.toNat col.toNat fun cl => { cl with state := CellState.revealed },
         updateScore g.players i fun s => max 0 (s - 3))
      else
        let points : Int := if cell.neighborMines = 0 then 1 else (cell.neighborMines : Int)
        let players1 := updateScore g.players i fun s => s + points
        if cell.neighborMines = 0 then
          let cascade := revealEmptyCells
            (mapCell g.board row.toNat col.toNat fun cl =>
              { cl with state := CellState.revealed }) row.toNat col.toNat
          let addPoints := (cascade.2.map (cellPoints cascade.1)).sum
          (cascade.1, updateScore players1 i fun s => s + addPoints)
        else
          (mapCell g.board row.toNat col.toNat fun cl =>
            { cl with state := CellState.revealed }, players1)).2, 0 ≤ p.score := by
      have hpoints : (0 : Int) ≤ if cell.neighborMines = 0 then 1 else (cell.neighborMines : Int) := by
        by_cases hz : cell.neighborMines = 0
        · simp [hz]
        · simp [hz]
      by_cases hm : cell.isMine = true
      · rw [if_pos hm]
        exact updateScore_nonneg (fun s _ => le_max_left 0 (s - 3)) hp
      · rw [if_neg hm]
        dsimp only
        have hp1 := updateScore_nonneg (i := i)
          (f := fun s => s + if cell.neighborMines = 0 then 1 else (cell.neighborMines : Int))
          (fun s hs => add_nonneg hs hpoints) hp
        by_cases hz : cell.neighborMines = 0
        · rw [if_pos hz]
          exact updateScore_nonneg
            (fun s hs => add_nonneg hs (List.sum_nonneg fun x hx => by
              obtain ⟨pos, -, rfl⟩ := List.mem_map.mp hx
              exact cellPoints_nonneg _ pos)) hp1
        · rw [if_neg hz]
          exact hp1
    exact ⟨hplayers, scoreOf_nonneg hplayers _, scoreOf_nonneg hplayers _⟩
  · intro g userId row col g' resp hmove hhost hguest
    obtain ⟨cell, -, heq⟩ := handleGameRaceMove_ok_elim hmove
    have hg' : g' = (raceMoveApply g userId row.toNat col.toNat cell).1 :=
      congrArg Prod.fst heq
    rw [hg']
    unfold raceMoveApply
    dsimp only
    have hscore0 : (0 : Int) ≤ if userId = g.hostId then g.hostScore else g.guestScore := by
      by_cases hh : userId = g.hostId
      · rw [if_pos hh]; exact hhost
      · rw [if_neg hh]; exact hguest
    have hscore1 : (0 : Int) ≤ (if cell.isMine then
        (insert (row.toNat, col.toNat) (raceRevealedOf g userId),
         max 0 ((if userId = g.hostId then g.hostScore else g.guestScore) - 3))
      else
        let afterTarget := insert (row.toNat, col.toNat) (raceRevealedOf g userId)
        let base := (if userId = g.hostId then g.hostScore else g.guestScore)
          + (if cell.neighborMines = 0 then 1 else (cell.neighborMines : Int))
        if cell.neighborMines = 0 then
          let cascade := raceRevealEmptyCells g.board afterTarget row.toNat col.toNat
          (cascade.1, base + (cascade.2.map (cellPoints g.board)).sum)
        else (afterTarget, base)).2 := by
      have hpoints : (0 : Int) ≤ if cell.neighborMines = 0 then 1 else (cell.neighborMines : Int) := by
        by_cases hz : cell.neighborMines = 0
        · simp [hz]
        · simp [hz]
      by_cases hm : cell.isMine = true
      · rw [if_pos hm]
        exact le_max_left 0 _
      · rw [if_neg hm]
        dsimp only
        by_cases hz : cell.neighborMines = 0
        · rw [if_pos hz]
          exact add_nonneg (add_nonneg hscore0 hpoints)
            (List.sum_nonneg fun x hx => by
              obtain ⟨pos, -, rfl⟩ := List.mem_map.mp hx
              exact cellPoints_nonneg _ pos)
        · rw [if_neg hz]
          exact add_nonneg hscore0 hpoints
    constructor
    · by_cases hh : userId = g.hostId
      · rw [if_pos hh]; exact hscore1
      · rw [if_neg hh]; exact hhost
    · by_cases hh : userId = g.hostId
      · rw [if_pos hh]; exact hguest
      · rw [if_neg hh]; exact hscore1

/-- Claim C10: witness: the started game `c10StartGame` has zero host and guest
scores, and after the concrete classic move of C5 and the concrete race move of
C6 both persisted score fields are still non-negative. -/
theorem C10_witness :
    c10StartGame.hostScore = 0 ∧ c10StartGame.guestScore = 0
  ∧ 0 ≤ c5Pair.1.hostScore ∧ 0 ≤ c5Pair.1.guestScore
  ∧ 0 ≤ c10RacePair.1.hostScore ∧ 0 ≤ c10RacePair.1.guestScore := by
  have h1 := C10_score_nonneg.1 c10Lobby "A" { rows := 2, cols := 2, mines := 1 } 0 0 [(1, 1)]
    c10StartGame (ok_of_toOption_eq_some (by decide))
  have h2 := C10_score_nonneg.2.1 classicGame2 "A" 0 0 c5Pair.1 c5Pair.2
    (ok_of_toOption_eq_some (by decide)) (by decide)
  have h3 := C10_score_nonneg.2.2 raceGame21 "A" 0 0 c10RacePair.1 c10RacePair.2
    (ok_of_toOption_eq_some (by decide)) (by decide) (by decide)
  exact ⟨h1.2.1, h1.2.2, h2.2.1, h2.2.2, h3.1, h3.2⟩

/-! ## Board access lemmas -/

theorem getCell_eq (b : Board) (r c : Nat) :
    getCell b r c = b[r]?.bind fun rowCells => rowCells[c]? := by
  simp [getCell, List.get?_eq_getElem?]

/-- Reading back through `mapCell`: the updated cell at the written position,
everything else untouched. -/
theorem getCell_mapCell (b : Board) (row col : Nat) (f : Cell → Cell) (r c : Nat) :
    getCell (mapCell b row col f) r c =
      if r = row ∧ c = col then (getCell b row col).map f else getCell b r c := by
  unfold mapCell
  cases hrow : b.get? row with
  | none =>
    have hrow' : b[row]? = none := by rw [← List.get?_eq_getElem?]; exact hrow
    by_cases h : r = row ∧ c = col
    · obtain ⟨rfl, rfl⟩ := h
      simp [getCell_eq, hrow']
    · simp [getCell_eq, h]
  | some rowCells =>
    have hrow' : b[row]? = some rowCells := by rw [← List.get?_eq_getElem?]; exact hrow
    have hrowlen : row < b.length := (List.getElem?_eq_some_iff.mp hrow').1
    cases hcol : rowCells.get? col with
    | none =>
      have hcol' : rowCells[col]? = none := by rw [← List.get?_eq_getElem?]; exact hcol
      by_cases h : r = row ∧ c = col
      · obtain ⟨rfl, rfl⟩ := h
        simp [getCell_eq, hrow', hcol']
      · simp [getCell_eq, h, hcol']
    | some cell =>
      have hcol' : rowCells[col]? = some cell := by rw [← List.get?_eq_getElem?]; exact hcol
      have hcollen : col < rowCells.length := (List.getElem?_eq_some_iff.mp hcol').1
      by_cases hr : r = row
      · subst hr
        by_cases hc : c = col
        · subst hc
          simp [getCell_eq, hrow', hcol', List.getElem?_set_self hrowlen,
            List.getElem?_set_self hcollen]
        · simp [getCell_eq, hc, hrow', List.getElem?_set_self hrowlen,
            List.getElem?_set_ne (fun hh => hc hh.symm), hcol']
      · have hno : ¬(r = row ∧ c = col) := fun hh => hr hh.1
        simp [getCell_eq, hno, hcol', List.getElem?_set_ne (fun hh => hr hh.symm)]

/-- Reading back through a whole-board cell map. -/
theorem getCell_map_map (f : Cell → Cell) (b : Board) (r c : Nat) :
    getCell (b.map fun rowCells => rowCells.map f) r c = (getCell b r c).map f := by
  rw [getCell_eq, getCell_eq, List.getElem?_map]
  cases b[r]? with
  | none => rfl
  | some rowCells => simp [List.getElem?_map]

/-- Reading back through the `enum`-based race view builder. -/
theorem getCell_buildSafeBoardForRace (b : Board) (s : Finset (Nat × Nat)) (go : Bool)
    (r c : Nat) :
    getCell (buildSafeBoardForRace b s go) r c =
      (getCell b r c).map fun cell =>
        if go || decide ((r, c) ∈ s) then cell
        else { cell with isMine := false, neighborMines := 0, state := CellState.hidden } := by
  unfold buildSafeBoardForRace
  rw [getCell_eq, getCell_eq, List.getElem?_map, List.getElem?_enum]
  cases b[r]? with
  | none => rfl
  | some rowCells =>
    simp only [Option.map_some', Option.some_bind, List.getElem?_map, List.getElem?_enum]
    cases rowCells[c]? <;> rfl

/-- A masked classic view cell is neutral: if the view cell is not revealed,
it reports no mine and a zero count. -/
theorem buildSafeBoard_mask {b : Board} {r c : Nat} {cell : Cell}
    (h : getCell (buildSafeBoard b false) r c = some cell)
    (hs : cell.state ≠ CellState.revealed) :
    cell.isMine = false ∧ cell.neighborMines = 0 := by
  unfold buildSafeBoard at h
  rw [getCell_map_map] at h
  obtain ⟨cell0, -, rfl⟩ := Option.map_eq_some'.mp h
  by_cases hrev : cell0.state = CellState.revealed
  · exact absurd (by simp [hrev]) hs
  · simp [hrev]

/-- A masked race view cell is neutral: if the coordinate is not in the
requesting player's revealed set, the view reports no mine and a zero count. -/
theorem buildSafeBoardForRace_mask {b : Board} {s : Finset (Nat × Nat)} {r c : Nat}
    {cell : Cell} (h : getCell (buildSafeBoardForRace b s false) r c = some cell)
    (hmem : (r, c) ∉ s) : cell.isMine = false ∧ cell.neighborMines = 0 := by
  rw [getCell_buildSafeBoardForRace] at h
  obtain ⟨cell0, -, rfl⟩ := Option.map_eq_some'.mp h
  simp [hmem]

/-! ## C1 amended — sanitized views -/

theorem getCell_mem {b : Board} {r c : Nat} {cl : Cell} (h : getCell b r c = some cl) :
    ∃ rowCells ∈ b, cl ∈ rowCells := by
  rw [getCell_eq] at h
  cases hrow : b[r]? with
  | none => rw [hrow] at h; cases h
  | some rowCells =>
    rw [hrow] at h
    exact ⟨rowCells, List.getElem?_mem hrow, List.getElem?_mem h⟩

theorem allHidden_mapCell {b : Board} {row col : Nat} {f : Cell → Cell}
    (hf : ∀ cl, (f cl).state = cl.state) (h : allHidden b) :
    allHidden (mapCell b row col f) := by
  unfold mapCell
  split
  · exact h
  · split
    · exact h
    · rename_i x1 rowCells hrow x2 cell hcol
      intro rc hrc cl hcl
      rcases List.mem_or_eq_of_mem_set hrc with hrc' | rfl
      · exact h rc hrc' cl hcl
      · rcases List.mem_or_eq_of_mem_set hcl with hcl' | rfl
        · exact h rowCells (List.get?_mem hrow) cl hcl'
        · rw [hf cell]
          exact h rowCells (List.get?_mem hrow) cell (List.get?_mem hcol)

theorem allHidden_createBoard (cfg : GameConfig) : allHidden (createBoard cfg) := by
  intro rowCells hrow cl hcl
  unfold createBoard at hrow
  obtain ⟨row, -, rfl⟩ := List.mem_map.mp hrow
  obtain ⟨col, -, rfl⟩ := List.mem_map.mp hcl
  rfl

theorem allHidden_placeMinesGo (cfg : GameConfig) (fr fc : Nat) :
    ∀ (samples : List (Nat × Nat)) (b : Board) (placed : Nat) (b' : Board),
      allHidden b → placeMinesGo cfg fr fc b placed samples = some b' → allHidden b' := by
  intro samples
  induction samples with
  | nil =>
    intro b placed b' hb h
    unfold placeMinesGo at h
    split at h
    · exact Option.some.inj h ▸ hb
    · exact Option.noConfusion h
  | cons head rest ih =>
    obtain ⟨rr, rc⟩ := head
    intro b placed b' hb h
    unfold placeMinesGo at h
    split at h
    · exact Option.some.inj h ▸ hb
    · split at h
      · exact ih b placed b' hb h
      · exact ih (mapCell b rr rc fun cell => { cell with isMine := true }) (placed + 1) b'
          (allHidden_mapCell (fun cl => rfl) hb) h

theorem allHidden_calculateNeighborMines {b : Board} (h : allHidden b) :
    allHidden (calculateNeighborMines b) := by
  intro rowCells hrow cl hcl
  unfold calculateNeighborMines at hrow
  obtain ⟨row, -, rfl⟩ := List.mem_map.mp hrow
  obtain ⟨col, -, rfl⟩ := List.mem_map.mp hcl
  dsimp only
  cases hg : getCell b row col with
  | none =>
    by_cases hm : (dummyCell).isMine = true <;> simp [hg, hm, dummyCell]
  | some c0 =>
    obtain ⟨rc, hrc, hc0⟩ := getCell_mem hg
    have hstate := h rc hrc c0 hc0
    by_cases hm : c0.isMine = true <;> simp [hg, hm, hstate]

/-- The board of a freshly started game is fully hidden. -/
theorem handleGameStart_allHidden {lobby : Lobby} {userId : String} {cfg : GameConfig}
    {sr sc : Nat} {samples : List (Nat × Nat)} {g : Game}
    (h : handleGameStart lobby userId cfg sr sc samples = .ok g) : allHidden g.board := by
  unfold handleGameStart at h
  split at h
  · exact Except.noConfusion h
  split at h
  · exact Except.noConfusion h
  split at h
  · exact Except.noConfusion h
  rename_i board hboard
  obtain rfl := Except.ok.inj h
  unfold generate at hboard
  obtain ⟨b0, hb0, rfl⟩ := Option.map_eq_some'.mp hboard
  exact allHidden_calculateNeighborMines
    (allHidden_placeMinesGo cfg sr sc samples (createBoard cfg) 0 b0
      (allHidden_createBoard cfg) hb0)

/-- The success status of the race handler implies the game was `PLAYING`. -/
theorem handleGameRaceMove_ok_status {g : Game} {userId : String} {row col : Int}
    {pr : Game × RaceMoveResponse}
    (h : handleGameRaceMove g userId row col = .ok pr) : g.status = GStatus.playing := by
  by_contra hne
  unfold handleGameRaceMove at h
  rw [if_pos hne] at h
  exact Except.noConfusion h

/-- The classic response fields relevant to sanitization, with the post-move
board abstracted. -/
theorem classicMoveApply_resp (game : Game) (userId : String) (i r c : Nat) (cell : Cell) :
    ∃ b2 : Board,
      (classicMoveApply game userId i r c cell).2.board
        = buildSafeBoard b2 (checkGameOver b2)
    ∧ (classicMoveApply game userId i r c cell).2.status
        = (if checkGameOver b2 = true then GStatus.finished else game.status) :=
  ⟨_, rfl, rfl⟩

/-- The race response fields relevant to sanitization, with the mover's
post-move revealed set abstracted. -/
theorem raceMoveApply_resp (game : Game) (userId : String) (r c : Nat) (cell : Cell) :
    ∃ s : Finset (Nat × Nat),
      (raceMoveApply game userId r c cell).2.board
        = buildSafeBoardForRace game.board s
            (decide (countSafe game.board ≤ countRevealedSafe game.board s))
    ∧ raceRevealedOf (raceMoveApply game userId r c cell).1 userId = s
    ∧ (raceMoveApply game userId r c cell).2.status
        = (if decide (countSafe game.board ≤ countRevealedSafe game.board s) = true
           then GStatus.finished else game.status) := by
  refine ⟨_, rfl, ?_, rfl⟩
  unfold raceRevealedOf raceMoveApply
  dsimp only
  by_cases hh : userId = game.hostId <;> simp [hh, raceRevealedOf]

/-- Claim C1: (amended).  Sanitization as the code implements it: while the
returned status is still `PLAYING`, the classic view masks (`isMine = false`,
`neighborMines = 0`) every cell not marked `REVEALED` on the shared board, the
race view masks every cell not in the requesting mover's own revealed set, and
the view returned by `startGame` masks every cell of the fresh board; only a
`FINISHED` game may disclose the full board. -/
theorem C1_sanitized_views :
    (∀ (g : Game) (userId : String) (row col : Int) (g' : Game) (resp : MoveResponse),
      handleGameMove g userId row col = .ok (g', resp) →
      resp.status = GStatus.playing →
      ∀ (r c : Nat) (cell : Cell), getCell resp.board r c = some cell →
        cell.state ≠ CellState.revealed →
        cell.isMine = false ∧ cell.neighborMines = 0)
  ∧ (∀ (g : Game) (userId : String) (row col : Int) (g' : Game) (resp : RaceMoveResponse),
      handleGameRaceMove g userId row col = .ok (g', resp) →
      resp.status = GStatus.playing →
      ∀ (r c : Nat) (cell : Cell), getCell resp.board r c = some cell →
        (r, c) ∉ raceRevealedOf g' userId →
        cell.isMine = false ∧ cell.neighborMines = 0)
  ∧ (∀ (lobby : Lobby) (userId : String) (cfg : GameConfig) (sr sc : Nat)
        (samples : List (Nat × Nat)) (g : Game),
      handleGameStart lobby userId cfg sr sc samples = .ok g →
      ∀ (r c : Nat) (cell : Cell), getCell (buildSafeBoard g.board false) r c = some cell →
        cell.isMine = false ∧ cell.neighborMines = 0) := by
  refine ⟨?_, ?_, ?_⟩
  · intro g userId row col g' resp hmove hstatus r c cellv hget hstate
    obtain ⟨hplay, i, cell, -, -, -, heq⟩ := handleGameMove_ok_elim hmove
    have hresp : resp = (classicMoveApply g userId i row.toNat col.toNat cell).2 :=
      congrArg Prod.snd heq
    obtain ⟨b2, hb, hs⟩ := classicMoveApply_resp g userId i row.toNat col.toNat cell
    rw [hresp, hb] at hget
    rw [hresp, hs] at hstatus
    by_cases hgo : checkGameOver b2 = true
    · rw [if_pos hgo] at hstatus
      exact absurd hstatus (by simp)
    · rw [Bool.not_eq_true] at hgo
      rw [hgo] at hget
      exact buildSafeBoard_mask hget hstate
  · intro g userId row col g' resp hmove hstatus r c cellv hget hmem
    obtain ⟨cell, -, heq⟩ := handleGameRaceMove_ok_elim hmove
    have hresp : resp = (raceMoveApply g userId row.toNat col.toNat cell).2 :=
      congrArg Prod.snd heq
    have hg' : g' = (raceMoveApply g userId row.toNat col.toNat cell).1 :=
      congrArg Prod.fst heq
    obtain ⟨s, hb, hrev, hs⟩ := raceMoveApply_resp g userId row.toNat col.toNat cell
    rw [hresp, hb] at hget
    rw [hresp, hs] at hstatus
    rw [hg', hrev] at hmem
    by_cases hfin : decide (countSafe g.board ≤ countRevealedSafe g.board s) = true
    · rw [if_pos hfin] at hstatus
      exact absurd hstatus (by simp)
    · rw [Bool.not_eq_true] at hfin
      rw [hfin] at hget
      exact buildSafeBoardForRace_mask hget hmem
  · intro lobby userId cfg sr sc samples g hstart r c cellv hget
    have hhid := handleGameStart_allHidden hstart
    unfold buildSafeBoard at hget
    rw [getCell_map_map] at hget
    obtain ⟨cell0, hc0, rfl⟩ := Option.map_eq_some'.mp hget
    obtain ⟨rc, hrc, hmem⟩ := getCell_mem hc0
    have hstate := hhid rc hrc cell0 hmem
    simp [hstate]

/-- Claim C1: amended witness: in the still-`PLAYING` view returned to `"B"` in
the C1 trace, the hidden cell `(0,1)` is masked. -/
theorem C1_amended_witness :
    ((getCell c1Pair.2.board 0 1).getD dummyCell).isMine = false
  ∧ ((getCell c1Pair.2.board 0 1).getD dummyCell).neighborMines = 0 :=
  C1_sanitized_views.1 c1GameAfterA "B" 1 1 c1Pair.1 c1Pair.2
    (ok_of_toOption_eq_some (by decide)) (by decide) 0 1
    ((getCell c1Pair.2.board 0 1).getD dummyCell) (by decide) (by decide)

/-! ## C9 amended — createLobby max-players clamp -/

/-- Claim C9: (amended).  For every `createLobby` request with a valid name,
difficulty and mode the call succeeds regardless of the requested
`maxPlayers` — out-of-range values are never rejected — and the stored
max-players is the requested value clamped into `[2, 4]` (a missing,
unparseable or zero value counting as 2); in particular exactly the requested
values 2–4 are honored verbatim. -/
theorem C9_maxPlayers_clamp (userId name difficulty : String) (mp : Option Int)
    (mode : Option String)
    (hname : 1 ≤ (jsTrim name).length ∧ (jsTrim name).length ≤ 50)
    (hdiff : difficulty ∈ VALID_DIFFICULTIES)
    (hmode : (mode.getD "classic") ∈ VALID_GAME_MODES) :
    ∃ view, handleLobbyCreate userId name difficulty mp mode = .ok view
      ∧ view.maxPlayers = min (max (parseIntOr2 mp) 2) 4
      ∧ 2 ≤ view.maxPlayers ∧ view.maxPlayers ≤ 4
      ∧ (∀ v : Int, mp = some v → 2 ≤ v → v ≤ 4 → view.maxPlayers = v) := by
  unfold handleLobbyCreate
  rw [if_neg (by omega), if_neg (by simpa using hdiff)]
  dsimp only
  rw [if_neg (by simpa using hmode)]
  refine ⟨_, rfl, rfl, ?_, ?_, ?_⟩
  · exact le_min (le_max_right _ 2) (by decide)
  · exact min_le_right _ 4
  · intro v hv h2 h4
    subst hv
    have hne : ¬ v = 0 := by omega
    have hp : parseIntOr2 (some v) = v := by
      simp [parseIntOr2, hne]
    dsimp only
    rw [hp]
    omega

/-- Claim C9 amended witness: a request with `maxPlayers = 3` succeeds and is
honored verbatim. -/
theorem C9_witness :
    (handleLobbyCreate "u1" "room" "EASY" (some 3) none).toOption.map LobbyView.maxPlayers
      = some 3 := by
  obtain ⟨view, hok, hval, h2, h4, hhon⟩ :=
    C9_maxPlayers_clamp "u1" "room" "EASY" (some 3) none (by decide) (by decide) (by decide)
  rw [hok]
  simp only [Except.toOption, Option.map_some']
  rw [hhon 3 rfl (by decide) (by decide)]

/-! ## C4 — mine placement and neighbor counts -/

theorem getCell_isSome_iff {b : Board} {rows cols : Nat} (h : boardShape b rows cols)
    (r c : Nat) : (getCell b r c).isSome ↔ r < rows ∧ c < cols := by
  rw [getCell_eq]
  cases hrow : b[r]? with
  | none =>
    have : ¬ r < b.length := by
      intro hlt
      rw [(List.getElem?_eq_some_iff.mpr ⟨hlt, rfl⟩ : b[r]? = some b[r])] at hrow
      exact Option.noConfusion hrow
    simp [h.1 ▸ this]
  | some rowCells =>
    have hrlt : r < b.length := (List.getElem?_eq_some_iff.mp hrow).1
    have hlen : rowCells.length = cols := h.2 rowCells (List.getElem?_mem hrow)
    constructor
    · intro hs
      cases hcol : rowCells[c]? with
      | none =>
        rw [Option.some_bind, hcol] at hs
        exact absurd hs (by simp)
      | some cell =>
        exact ⟨h.1 ▸ hrlt, hlen ▸ (List.getElem?_eq_some_iff.mp hcol).1⟩
    · rintro ⟨-, hc⟩
      have hclt : c < rowCells.length := hlen ▸ hc
      rw [Option.some_bind, (List.getElem?_eq_some_iff.mpr ⟨hclt, rfl⟩ : rowCells[c]? = some rowCells[c])]
      rfl

theorem boardShape_createBoard (cfg : GameConfig) :
    boardShape (createBoard cfg) cfg.rows cfg.cols := by
  constructor
  · simp [createBoard]
  · intro rowCells hmem
    unfold createBoard at hmem
    obtain ⟨row, -, rfl⟩ := List.mem_map.mp hmem
    simp

theorem boardShape_mapCell {b : Board} {rows cols : Nat} (h : boardShape b rows cols)
    (row col : Nat) (f : Cell → Cell) : boardShape (mapCell b row col f) rows cols := by
  unfold mapCell
  split
  · exact h
  · split
    · exact h
    · rename_i x1 rowCells hrow x2 cell hcol
      refine ⟨by rw [List.length_set]; exact h.1, ?_⟩
      intro rc hrc
      rcases List.mem_or_eq_of_mem_set hrc with hrc' | rfl
      · exact h.2 rc hrc'
      · rw [List.length_set]
        exact h.2 rowCells (List.get?_mem hrow)

theorem getCell_createBoard (cfg : GameConfig) (r c : Nat) :
    getCell (createBoard cfg) r c =
      if r < cfg.rows ∧ c < cfg.cols
      then some { row := r, col := c, isMine := false, neighborMines := 0,
                  state := CellState.hidden }
      else none := by
  rw [getCell_eq]
  unfold createBoard
  rw [List.getElem?_map]
  by_cases hr : r < cfg.rows
  · rw [List.getElem?_range hr]
    simp only [Option.map_some', Option.some_bind, List.getElem?_map]
    by_cases hc : c < cfg.cols
    · rw [List.getElem?_range hc]
      simp [hr, hc]
    · rw [List.getElem?_eq_none (by simpa using Nat.le_of_not_lt hc)]
      simp [hc]
  · rw [List.getElem?_eq_none (by simpa using Nat.le_of_not_lt hr)]
    simp [hr]

theorem cellIsMine_mapCell (b : Board) (row col : Nat) (f : Cell → Cell) (r c : Nat) :
    cellIsMine (mapCell b row col f) r c
      = if r = row ∧ c = col
        then ((getCell b row col).map fun cl => (f cl).isMine).getD false
        else cellIsMine b r c := by
  unfold cellIsMine
  rw [getCell_mapCell]
  by_cases h : r = row ∧ c = col
  · simp [h, Option.map_map]
    rfl
  · simp [h]

theorem minesFinset_setMine {b : Board} {rows cols rr rc : Nat}
    (hb : rr < rows ∧ rc < cols) (hsome : (getCell b rr rc).isSome) :
    minesFinset (mapCell b rr rc fun cell => { cell with isMine := true }) rows cols
      = insert (rr, rc) (minesFinset b rows cols) := by
  obtain ⟨cl, hcl⟩ := Option.isSome_iff_exists.mp hsome
  ext ⟨x, y⟩
  rw [Finset.mem_insert]
  simp only [minesFinset, Finset.mem_filter, gridPositions, Finset.mem_product,
    Finset.mem_range]
  rw [cellIsMine_mapCell]
  by_cases h : x = rr ∧ y = rc
  · obtain ⟨rfl, rfl⟩ := h
    simp [hcl, hb]
  · have hne : ¬ ((x, y) = (rr, rc)) := by
      simp only [Prod.mk.injEq]
      exact h
    simp [h, hne]

theorem not_mem_minesFinset {b : Board} {rows cols rr rc : Nat}
    (hnm : cellIsMine b rr rc = false) : (rr, rc) ∉ minesFinset b rows cols := by
  intro hmem
  simp only [minesFinset, Finset.mem_filter] at hmem
  rw [hnm] at hmem
  exact Bool.noConfusion hmem.2

/-- The full loop invariant of `placeMines`: starting from a rectangular board
with `placed` mines and a mine-free safe cell, a successful run ends with
exactly `cfg.mines` mines, the safe cell still clear, and the shape intact. -/
theorem placeMinesGo_spec (cfg : GameConfig) (fr fc : Nat) :
    ∀ (samples : List (Nat × Nat)) (nb : Board) (placed : Nat) (b' : Board),
      (∀ p ∈ samples, p.1 < cfg.rows ∧ p.2 < cfg.cols) →
      boardShape nb cfg.rows cfg.cols →
      (minesFinset nb cfg.rows cfg.cols).card = placed →
      placed ≤ cfg.mines →
      cellIsMine nb fr fc = false →
      placeMinesGo cfg fr fc nb placed samples = some b' →
      (minesFinset b' cfg.rows cfg.cols).card = cfg.mines
      ∧ cellIsMine b' fr fc = false
      ∧ boardShape b' cfg.rows cfg.cols := by
  intro samples
  induction samples with
  | nil =>
    intro nb placed b' hs hshape hcard hle hsafe h
    unfold placeMinesGo at h
    split at h
    · rename_i hstop
      obtain rfl := Option.some.inj h
      exact ⟨by rw [hcard]; omega, hsafe, hshape⟩
    · exact Option.noConfusion h
  | cons head rest ih =>
    obtain ⟨rr, rc⟩ := head
    intro nb placed b' hs hshape hcard hle hsafe h
    unfold placeMinesGo at h
    split at h
    · rename_i hstop
      obtain rfl := Option.some.inj h
      exact ⟨by rw [hcard]; omega, hsafe, hshape⟩
    · rename_i hstop
      split at h
      · exact ih nb placed b' (fun p hp => hs p (List.mem_cons_of_mem _ hp))
          hshape hcard hle hsafe h
      · rename_i hguard
        rw [Bool.or_eq_true, not_or] at hguard
        obtain ⟨hguard1, hguard2⟩ := hguard
        have hnm : cellIsMine nb rr rc = false := by
          cases hmm : cellIsMine nb rr rc
          · rfl
          · exact absurd hmm hguard2
        have hrb : rr < cfg.rows ∧ rc < cfg.cols := hs (rr, rc) (List.mem_cons_self _ _)
        have hsome : (getCell nb rr rc).isSome := (getCell_isSome_iff hshape rr rc).mpr hrb
        have hfm : minesFinset (mapCell nb rr rc fun cell => { cell with isMine := true })
            cfg.rows cfg.cols = insert (rr, rc) (minesFinset nb cfg.rows cfg.cols) :=
          minesFinset_setMine hrb hsome
        have hcard' : (minesFinset (mapCell nb rr rc fun cell => { cell with isMine := true })
            cfg.rows cfg.cols).card = placed + 1 := by
          rw [hfm, Finset.card_insert_of_not_mem (not_mem_minesFinset hnm), hcard]
        have hneq : ¬ (fr = rr ∧ fc = rc) := by
          rintro ⟨rfl, rfl⟩
          simp at hguard1
        have hsafe' : cellIsMine (mapCell nb rr rc fun cell => { cell with isMine := true })
            fr fc = false := by
          rw [cellIsMine_mapCell, if_neg hneq]
          exact hsafe
        exact ih _ (placed + 1) b' (fun p hp => hs p (List.mem_cons_of_mem _ hp))
          (boardShape_mapCell hshape rr rc _) hcard' (by omega) hsafe' h

/-- The clamped-loop neighbor count of the source equals the specification's
Moore-neighborhood mine count. -/
theorem countNeighborMinesAt_eq_moore (b : Board) (rows cols r c : Nat) :
    countNeighborMinesAt b rows cols r c = mooreMineCount b rows cols r c := by
  classical
  have hnodR : (clampedRange rows r).Nodup := (List.nodup_range rows).filter _
  have hnodC : (clampedRange cols c).Nodup := (List.nodup_range cols).filter _
  -- Finset versions of the two clamped loops
  have htfR : (clampedRange rows r).toFinset
      = (Finset.range rows).filter (fun j => r ≤ j + 1 ∧ j ≤ r + 1) := by
    ext j
    simp [clampedRange]
  -- the outer list sum as a Finset sum
  have hsum : countNeighborMinesAt b rows cols r c
      = ((Finset.range rows).filter fun j => r ≤ j + 1 ∧ j ≤ r + 1).sum
          (fun r' => ((clampedRange cols c).filter fun c' =>
            (r' != r || c' != c) && cellIsMine b r' c').length) := by
    rw [← htfR, List.sum_toFinset _ hnodR]
    rfl
  -- each inner filtered-list length as a Finset card
  have hinner : ∀ r' : Nat,
      ((clampedRange cols c).filter fun c' =>
          (r' != r || c' != c) && cellIsMine b r' c').length
      = ((Finset.range cols).filter fun c' =>
          (c ≤ c' + 1 ∧ c' ≤ c + 1) ∧ ¬(r' = r ∧ c' = c) ∧ cellIsMine b r' c' = true).card := by
    intro r'
    rw [← List.toFinset_card_of_nodup (hnodC.filter _)]
    congr 1
    ext c'
    simp only [List.mem_toFinset, List.mem_filter, clampedRange, List.mem_range,
      Finset.mem_filter, Finset.mem_range, Bool.and_eq_true, Bool.or_eq_true,
      bne_iff_ne, decide_eq_true_eq]
    constructor
    · rintro ⟨⟨hc1, hc2⟩, hne, hm⟩
      exact ⟨hc1, hc2, fun hh => by rcases hne with h | h <;> [exact h hh.1; exact h hh.2], hm⟩
    · rintro ⟨hc1, ⟨hc2, hc3⟩, hne, hm⟩
      refine ⟨⟨hc1, hc2, hc3⟩, ?_, hm⟩
      by_cases hr : r' = r
      · exact Or.inr fun hcc => hne ⟨hr, hcc⟩
      · exact Or.inl hr
  -- the Moore set as a disjoint union over rows
  have hbi : mooreMineSet b rows cols r c
      = ((Finset.range rows).filter fun j => r ≤ j + 1 ∧ j ≤ r + 1).biUnion
          (fun r' => ((Finset.range cols).filter fun c' =>
            (c ≤ c' + 1 ∧ c' ≤ c + 1) ∧ ¬(r' = r ∧ c' = c) ∧ cellIsMine b r' c' = true).image
              fun c' => (r', c')) := by
    ext ⟨x, y⟩
    simp only [mooreMineSet, gridPositions, Finset.mem_filter, Finset.mem_product,
      Finset.mem_range, Finset.mem_biUnion, Finset.mem_image, Prod.mk.injEq, ne_eq]
    constructor
    · rintro ⟨⟨hx, hy⟩, hne, habs1, habs2, hm⟩
      refine ⟨x, ⟨hx, by omega, by omega⟩, y, ⟨hy, ⟨by omega, by omega⟩, ?_, hm⟩, rfl, rfl⟩
      intro ⟨hh1, hh2⟩
      exact hne (by simp [hh1, hh2])
    · rintro ⟨r', ⟨hr', h1, h2⟩, c', ⟨hc', ⟨h3, h4⟩, hne, hm⟩, rfl, rfl⟩
      refine ⟨⟨hr', hc'⟩, ?_, by omega, by omega, hm⟩
      intro hh
      exact hne hh
  have hdisj : ∀ x ∈ (Finset.range rows).filter (fun j => r ≤ j + 1 ∧ j ≤ r + 1),
      ∀ y ∈ (Finset.range rows).filter (fun j => r ≤ j + 1 ∧ j ≤ r + 1), x ≠ y →
      Disjoint
        (((Finset.range cols).filter fun c' =>
            (c ≤ c' + 1 ∧ c' ≤ c + 1) ∧ ¬(x = r ∧ c' = c) ∧ cellIsMine b x c' = true).image
          fun c' => (x, c'))
        (((Finset.range cols).filter fun c' =>
            (c ≤ c' + 1 ∧ c' ≤ c + 1) ∧ ¬(y = r ∧ c' = c) ∧ cellIsMine b y c' = true).image
          fun c' => (y, c')) := by
    intro x hx y hy hxy
    rw [Finset.disjoint_left]
    rintro ⟨px, py⟩ hmx hmy
    simp only [Finset.mem_image, Prod.mk.injEq] at hmx hmy
    obtain ⟨-, -, hx1, -⟩ := hmx
    obtain ⟨-, -, hy1, -⟩ := hmy
    exact hxy (hx1.trans hy1.symm)
  rw [hsum, mooreMineCount, hbi, Finset.card_biUnion hdisj]
  refine Finset.sum_congr rfl ?_
  intro r' hmem
  rw [hinner r']
  rw [Finset.card_image_of_injective _ (fun a b hab => by
    simpa using congrArg Prod.snd hab)]

theorem calculateNeighborMines_dims {b : Board} {rows cols : Nat}
    (h : boardShape b rows cols) (hrows : 0 < rows) :
    (b.head?.map List.length).getD 0 = cols := by
  cases b with
  | nil => rw [← h.1] at hrows; simp at hrows
  | cons r0 rest =>
    simp only [List.head?_cons, Option.map_some', Option.getD_some]
    exact h.2 r0 (List.mem_cons_self _ _)

theorem getCell_calculateNeighborMines {b : Board} {rows cols : Nat}
    (h : boardShape b rows cols) (hrows : 0 < rows) (r c : Nat) :
    getCell (calculateNeighborMines b) r c
      = (getCell b r c).map fun cell =>
          if cell.isMine then cell
          else { cell with neighborMines := countNeighborMinesAt b rows cols r c } := by
  have hcols := calculateNeighborMines_dims h hrows
  unfold calculateNeighborMines
  rw [getCell_eq]
  dsimp only
  rw [h.1, hcols, List.getElem?_map]
  by_cases hr : r < rows
  · rw [List.getElem?_range hr]
    simp only [Option.map_some', Option.some_bind, List.getElem?_map]
    by_cases hc : c < cols
    · rw [List.getElem?_range hc]
      have hsome := (getCell_isSome_iff h r c).mpr ⟨hr, hc⟩
      obtain ⟨cl, hcl⟩ := Option.isSome_iff_exists.mp hsome
      simp [hcl]
    · rw [List.getElem?_eq_none (by simpa using Nat.le_of_not_lt hc)]
      have hnone : getCell b r c = none := by
        rcases hn : getCell b r c with - | cl
        · rfl
        · exact absurd ((getCell_isSome_iff h r c).mp (by rw [hn]; rfl)).2 hc
      rw [hnone]
      rfl
  · rw [List.getElem?_eq_none (by simpa using Nat.le_of_not_lt hr)]
    have hnone : getCell b r c = none := by
      rcases hn : getCell b r c with - | cl
      · rfl
      · exact absurd ((getCell_isSome_iff h r c).mp (by rw [hn]; rfl)).1 hr
    rw [hnone]
    rfl

theorem cellIsMine_calculateNeighborMines {b : Board} {rows cols : Nat}
    (h : boardShape b rows cols) (hrows : 0 < rows) (r c : Nat) :
    cellIsMine (calculateNeighborMines b) r c = cellIsMine b r c := by
  unfold cellIsMine
  rw [getCell_calculateNeighborMines h hrows]
  cases getCell b r c with
  | none => rfl
  | some cl =>
    by_cases hm : cl.isMine = true <;> simp [hm]

theorem mooreMineCount_congr {b b' : Board} (rows cols : Nat)
    (h : ∀ r c, cellIsMine b r c = cellIsMine b' r c) (r c : Nat) :
    mooreMineCount b rows cols r c = mooreMineCount b' rows cols r c := by
  unfold mooreMineCount mooreMineSet
  congr 1
  apply Finset.filter_congr
  intro p hp
  rw [h p.1 p.2]

/-- Claim C4: Every board produced by the generator (`createBoard`,
`placeMines` with in-grid random draws, `calculateNeighborMines`) for a config
with `mineCount < rows*cols` and an in-grid safe cell has exactly `mineCount`
mined cells, a mine-free safe cell, and, on every non-mine cell, a
`neighborMines` equal to the number of mines among its at-most-8 Moore
neighbors. -/
theorem C4_generator (cfg : GameConfig) (safeRow safeCol : Nat)
    (samples : List (Nat × Nat)) (b : Board)
    (hdim : cfg.mines < cfg.rows * cfg.cols)
    (hsafe : safeRow < cfg.rows ∧ safeCol < cfg.cols)
    (hsamples : ∀ p ∈ samples, p.1 < cfg.rows ∧ p.2 < cfg.cols)
    (hgen : generate cfg safeRow safeCol samples = some b) :
    (minesFinset b cfg.rows cfg.cols).card = cfg.mines
  ∧ cellIsMine b safeRow safeCol = false
  ∧ ∀ (r c : Nat) (cell : Cell), getCell b r c = some cell → cell.isMine = false →
      cell.neighborMines = mooreMineCount b cfg.rows cfg.cols r c := by
  have hrows : 0 < cfg.rows := by
    rcases Nat.eq_zero_or_pos cfg.rows with h0 | h
    · rw [h0] at hdim; simp at hdim
    · exact h
  unfold generate placeMines at hgen
  obtain ⟨b0, hb0, rfl⟩ := Option.map_eq_some'.mp hgen
  have hshape0 := boardShape_createBoard cfg
  have hcard0 : (minesFinset (createBoard cfg) cfg.rows cfg.cols).card = 0 := by
    rw [Finset.card_eq_zero, Finset.eq_empty_iff_forall_not_mem]
    intro p hp
    simp only [minesFinset, Finset.mem_filter, gridPositions, Finset.mem_product,
      Finset.mem_range] at hp
    obtain ⟨⟨h1, h2⟩, h3⟩ := hp
    rw [cellIsMine, getCell_createBoard] at h3
    simp [h1, h2] at h3
  have hsafem : cellIsMine (createBoard cfg) safeRow safeCol = false := by
    rw [cellIsMine, getCell_createBoard]
    simp [hsafe.1, hsafe.2]
  obtain ⟨hcard, hsafef, hshapef⟩ := placeMinesGo_spec cfg safeRow safeCol samples
    (createBoard cfg) 0 b0 hsamples hshape0 hcard0 (Nat.zero_le _) hsafem hb0
  have hpres : ∀ r c, cellIsMine (calculateNeighborMines b0) r c = cellIsMine b0 r c :=
    cellIsMine_calculateNeighborMines hshapef hrows
  refine ⟨?_, ?_, ?_⟩
  · rw [← hcard]
    unfold minesFinset
    congr 1
    apply Finset.filter_congr
    intro p hp
    rw [hpres p.1 p.2]
  · rw [hpres]
    exact hsafef
  · intro r c cell hget hnm
    rw [getCell_calculateNeighborMines hshapef hrows] at hget
    obtain ⟨cell0, hc0, hfc⟩ := Option.map_eq_some'.mp hget
    by_cases hm : cell0.isMine = true
    · rw [if_pos hm] at hfc
      rw [← hfc] at hnm
      rw [hnm] at hm
      exact Bool.noConfusion hm
    · rw [if_neg hm] at hfc
      rw [← hfc]
      dsimp only
      rw [countNeighborMinesAt_eq_moore]
      exact mooreMineCount_congr cfg.rows cfg.cols (fun r c => (hpres r c).symm) r c

/-- Claim C4: witness: the concrete 2×2 generation places exactly one mine, keeps
the safe cell `(0,0)` clear, and gives `(0,0)` a neighbor count equal to its
Moore mine count. -/
theorem C4_witness :
    (minesFinset c4Board 2 2).card = 1
  ∧ cellIsMine c4Board 0 0 = false
  ∧ ((getCell c4Board 0 0).getD dummyCell).neighborMines = mooreMineCount c4Board 2 2 0 0 := by
  have h := C4_generator { rows := 2, cols := 2, mines := 1 } 0 0 [(1, 1)] c4Board
    (by decide) (by decide) (by decide) (by decide)
  exact ⟨h.1, h.2.1, h.2.2 0 0 ((getCell c4Board 0 0).getD dummyCell) (by decide) (by decide)⟩

end Minesweeper